import Mathlib

/-!
IMU initialisation, forward propagation and point undistortion (`IMU_Processing.hpp`).

A shallow embedding of `ImuProcess` (constructor, `Reset`, the setters, `IMU_init`,
`UndistortPcl`, `Process`) together with the properties established about it.

Conventions of the embedding.

* Scalars (`double`, and the `float` channels of a point) are exact rationals, so every
  statement below is a statement about the arithmetic the code writes down, not about
  rounding.
* The object state of `ImuProcess` and of the filter is passed explicitly; a member
  function returns the new state.
* Code that lives in other headers (`esekf::predict`, `Exp` of `so3_math.h`, Eigen's
  `norm()`, `std::sort`, `process_noise_cov`) is a field of `Ext`, so every theorem that
  quantifies over `Ext` holds for all implementations of those functions.
* A dereference the C++ leaves undefined (`front()`/`back()` of an empty deque, an iterator
  outside its container) makes the embedded function return `none`.
* `init_iter_num` is an `int` that starts at 1 and is only incremented; it is modelled as a
  natural number (it cannot exceed `10 +` the length of one IMU deque).
-/

namespace FastLio

/-! ## Linear algebra -/

/-- Three-vector `V3D`. -/
@[ext] structure V3 where
  x : ℚ
  y : ℚ
  z : ℚ
deriving DecidableEq

namespace V3

/-- The vector `Zero3d`. -/
def zero : V3 := ⟨0, 0, 0⟩

/-- Componentwise sum `a + b`. -/
def add (a b : V3) : V3 := ⟨a.x + b.x, a.y + b.y, a.z + b.z⟩

/-- Componentwise difference `a - b`. -/
def sub (a b : V3) : V3 := ⟨a.x - b.x, a.y - b.y, a.z - b.z⟩

/-- Negation `-a`. -/
def neg (a : V3) : V3 := ⟨-a.x, -a.y, -a.z⟩

/-- Product with a scalar, `a * s`. -/
def mulS (a : V3) (s : ℚ) : V3 := ⟨a.x * s, a.y * s, a.z * s⟩

/-- Quotient by a scalar, `a / s`. -/
def divS (a : V3) (s : ℚ) : V3 := ⟨a.x / s, a.y / s, a.z / s⟩

/-- Eigen's `a.cwiseProduct(b)`. -/
def cwiseProduct (a b : V3) : V3 := ⟨a.x * b.x, a.y * b.y, a.z * b.z⟩

/-- Inner product. -/
def dot (a b : V3) : ℚ := a.x * b.x + a.y * b.y + a.z * b.z

end V3

/-- Three-by-three matrix `M3D`, stored by rows. Rotations (`SO3`) are stored as their
rotation matrix, so `conjugate()` of a rotation is the transpose. -/
structure M3 where
  r0 : V3
  r1 : V3
  r2 : V3
deriving DecidableEq

namespace M3

/-- The matrix `Eye3d`. -/
def eye : M3 := ⟨⟨1, 0, 0⟩, ⟨0, 1, 0⟩, ⟨0, 0, 1⟩⟩

/-- Transpose. -/
def transpose (m : M3) : M3 :=
  ⟨⟨m.r0.x, m.r1.x, m.r2.x⟩, ⟨m.r0.y, m.r1.y, m.r2.y⟩, ⟨m.r0.z, m.r1.z, m.r2.z⟩⟩

/-- Matrix times vector. -/
def mulVec (m : M3) (v : V3) : V3 := ⟨m.r0.dot v, m.r1.dot v, m.r2.dot v⟩

/-- Matrix product `a * b`. -/
def mul (a b : M3) : M3 :=
  let bt := b.transpose
  ⟨⟨a.r0.dot bt.r0, a.r0.dot bt.r1, a.r0.dot bt.r2⟩,
   ⟨a.r1.dot bt.r0, a.r1.dot bt.r1, a.r1.dot bt.r2⟩,
   ⟨a.r2.dot bt.r0, a.r2.dot bt.r1, a.r2.dot bt.r2⟩⟩

end M3

/-- Square matrix of dynamic index type, used for the 23×23 covariance and the 12×12 `Q`. -/
abbrev Mat (n : Nat) := Matrix (Fin n) (Fin n) ℚ

/-- Assignment `M(i, i) = v` to one diagonal entry. -/
def setDiag {n : Nat} (M : Mat n) (i : Fin n) (v : ℚ) : Mat n :=
  fun a b => if a = i ∧ b = i then v else M a b

/-- Assignment `M.block<3,3>(i, i).diagonal() = v`, the three entries being `i0 i1 i2`. -/
def setDiag3 {n : Nat} (M : Mat n) (i0 i1 i2 : Fin n) (v : V3) : Mat n :=
  setDiag (setDiag (setDiag M i0 v.x) i1 v.y) i2 v.z

/-! ## Data model -/

/-- The constant `MAX_INI_COUNT`. -/
def MAX_INI_COUNT : Nat := 10

/-- Modelled from the spec: the constant `G_m_s2` is declared in `common_lib.h`, which is not
part of the source; the spec fixes the gravity magnitude at 9.81. -/
def G_m_s2 : ℚ := 981 / 100

/-- Modelled from the spec: the constructor of the manifold type `S2` is declared in the
filter toolkit, which is not part of the source; the spec assigns
`x.grav ← −μ_a / ‖μ_a‖ · 9.81`, so the constructor stores the vector it is given. -/
def S2 (v : V3) : V3 := v

/-- The filter state `state_ikfom` (manifold layout quoted in `UndistortPcl`). -/
structure state_ikfom where
  pos : V3
  rot : M3
  offset_R_L_I : M3
  offset_T_L_I : V3
  vel : V3
  bg : V3
  ba : V3
  grav : V3

/-- The filter input `input_ikfom`. -/
structure input_ikfom where
  acc : V3
  gyro : V3
deriving DecidableEq

/-- The filter object `esekf`: state `x` (`get_x`/`change_x`) and covariance `P`
(`get_P`/`change_P`). -/
structure esekf where
  x : state_ikfom
  P : Mat 23

/-- One `sensor_msgs::Imu` message: header stamp in seconds and the two readings. -/
structure Imu where
  stamp : ℚ
  angular_velocity : V3
  linear_acceleration : V3
deriving DecidableEq

/-- A freshly constructed message, `new sensor_msgs::Imu()`. -/
def Imu.empty : Imu := ⟨0, V3.zero, V3.zero⟩

/-- A LiDAR point `PointType`; `curvature` carries the time offset in milliseconds. -/
structure PointType where
  x : ℚ
  y : ℚ
  z : ℚ
  intensity : ℚ
  curvature : ℚ
deriving DecidableEq

/-- The point cloud `PointCloudXYZI`, as its `points` vector. -/
abbrev PointCloudXYZI := List PointType

/-- The comparison `time_list` given to `std::sort`. -/
def time_list (x y : PointType) : Bool := decide (x.curvature < y.curvature)

/-- The bundle `MeasureGroup`; `lidar` is a non-null cloud handle. -/
structure MeasureGroup where
  lidar_beg_time : ℚ
  lidar_end_time : ℚ
  lidar : PointCloudXYZI
  imu : List Imu

/-- The pose record `Pose6D`. -/
structure Pose6D where
  offset_time : ℚ
  acc : V3
  gyr : V3
  vel : V3
  pos : V3
  rot : M3
deriving DecidableEq

/-- The helper `set_pose6d`, which fills a `Pose6D` field by field. -/
def set_pose6d (t : ℚ) (a g v p : V3) (R : M3) : Pose6D := ⟨t, a, g, v, p, R⟩

/-- One call `kf_state.predict(dt, Q, in)`, recorded for the trace of a run. -/
structure PredictCall where
  dt : ℚ
  Q : Mat 12
  u : input_ikfom

/-- Functions of other headers that `ImuProcess` calls. -/
structure Ext where
  /-- The call `esekf::predict(dt, Q, in)`. -/
  predict : esekf → ℚ → Mat 12 → input_ikfom → esekf
  /-- The rotation `Exp(ang_vel, dt)` of `so3_math.h`. -/
  Exp : V3 → ℚ → M3
  /-- Eigen's `norm()`. -/
  norm : V3 → ℚ
  /-- The call `std::sort(begin, end, time_list)`. -/
  sort : PointCloudXYZI → PointCloudXYZI
  /-- The matrix returned by `process_noise_cov()`. -/
  process_noise_cov : Mat 12
  /-- The value of a default-constructed `input_ikfom`. -/
  input_default : input_ikfom

/-- The object state of `ImuProcess`. `fout_imu` records whether the debug stream is open. -/
structure ImuProcess where
  Q : Mat 12
  fout_imu : Bool
  cov_acc : V3
  cov_gyr : V3
  cov_acc_scale : V3
  cov_gyr_scale : V3
  cov_bias_gyr : V3
  cov_bias_acc : V3
  first_lidar_time : ℚ
  cur_pcl_un_ : PointCloudXYZI
  last_imu_ : Imu
  v_imu_ : List Imu
  IMUpose : List Pose6D
  v_rot_pcl_ : List M3
  Lidar_R_wrt_IMU : M3
  Lidar_T_wrt_IMU : V3
  mean_acc : V3
  mean_gyr : V3
  angvel_last : V3
  acc_s_last : V3
  start_timestamp_ : ℚ
  last_lidar_end_time_ : ℚ
  init_iter_num : Nat
  b_first_frame_ : Bool
  imu_need_init_ : Bool

/-- Values of the members the constructor leaves unassigned. -/
structure Unassigned where
  cov_acc_scale : V3
  cov_gyr_scale : V3
  acc_s_last : V3
  first_lidar_time : ℚ
  last_lidar_end_time_ : ℚ

/-! ## Constructor, `Reset` and the setters -/

/-- The constructor `ImuProcess::ImuProcess()`. -/
def ImuProcess.ctor (ext : Ext) (u : Unassigned) : ImuProcess where
  Q := ext.process_noise_cov
  fout_imu := false
  cov_acc := ⟨1 / 10, 1 / 10, 1 / 10⟩
  cov_gyr := ⟨1 / 10, 1 / 10, 1 / 10⟩
  cov_acc_scale := u.cov_acc_scale
  cov_gyr_scale := u.cov_gyr_scale
  cov_bias_gyr := ⟨1 / 10000, 1 / 10000, 1 / 10000⟩
  cov_bias_acc := ⟨1 / 10000, 1 / 10000, 1 / 10000⟩
  first_lidar_time := u.first_lidar_time
  cur_pcl_un_ := []
  last_imu_ := Imu.empty
  v_imu_ := []
  IMUpose := []
  v_rot_pcl_ := []
  Lidar_R_wrt_IMU := M3.eye
  Lidar_T_wrt_IMU := V3.zero
  mean_acc := ⟨0, 0, -1⟩
  mean_gyr := ⟨0, 0, 0⟩
  angvel_last := V3.zero
  acc_s_last := u.acc_s_last
  start_timestamp_ := -1
  last_lidar_end_time_ := u.last_lidar_end_time_
  init_iter_num := 1
  b_first_frame_ := true
  imu_need_init_ := true

/-- The member `ImuProcess::Reset()`. -/
def Reset (c : ImuProcess) : ImuProcess :=
  { c with
    mean_acc := ⟨0, 0, -1⟩
    mean_gyr := ⟨0, 0, 0⟩
    angvel_last := V3.zero
    imu_need_init_ := true
    start_timestamp_ := -1
    init_iter_num := 1
    v_imu_ := []
    IMUpose := []
    last_imu_ := Imu.empty
    cur_pcl_un_ := [] }

/-- The overload `set_extrinsic(transl, rot)`. -/
def set_extrinsic (c : ImuProcess) (transl : V3) (rot : M3) : ImuProcess :=
  { c with Lidar_T_wrt_IMU := transl, Lidar_R_wrt_IMU := rot }

/-- The overload `set_extrinsic(transl)`, which sets the rotation to the identity. -/
def set_extrinsic_transl (c : ImuProcess) (transl : V3) : ImuProcess :=
  { c with Lidar_T_wrt_IMU := transl, Lidar_R_wrt_IMU := M3.eye }

/-- The member `set_gyr_cov`. -/
def set_gyr_cov (c : ImuProcess) (scaler : V3) : ImuProcess := { c with cov_gyr_scale := scaler }

/-- The member `set_acc_cov`. -/
def set_acc_cov (c : ImuProcess) (scaler : V3) : ImuProcess := { c with cov_acc_scale := scaler }

/-- The member `set_gyr_bias_cov`. -/
def set_gyr_bias_cov (c : ImuProcess) (b_g : V3) : ImuProcess := { c with cov_bias_gyr := b_g }

/-- The member `set_acc_bias_cov`. -/
def set_acc_bias_cov (c : ImuProcess) (b_a : V3) : ImuProcess := { c with cov_bias_acc := b_a }

/-- A configuration call made before streaming. The overload of `set_extrinsic` taking a
4×4 matrix assigns its translation and rotation blocks and is the case `extrinsic`. -/
inductive Config where
  | extrinsic (transl : V3) (rot : M3)
  | extrinsic_transl (transl : V3)
  | gyr_cov (v : V3)
  | acc_cov (v : V3)
  | gyr_bias_cov (v : V3)
  | acc_bias_cov (v : V3)

/-- Effect of one configuration call. -/
def Config.apply (c : ImuProcess) : Config → ImuProcess
  | .extrinsic t r => set_extrinsic c t r
  | .extrinsic_transl t => set_extrinsic_transl c t
  | .gyr_cov v => set_gyr_cov c v
  | .acc_cov v => set_acc_cov c v
  | .gyr_bias_cov v => set_gyr_bias_cov c v
  | .acc_bias_cov v => set_acc_bias_cov c v

/-- Effect of a sequence of configuration calls, first call first. -/
def configure (c : ImuProcess) (cfgs : List Config) : ImuProcess := cfgs.foldl Config.apply c

/-- The extrinsic `(R, T)` a configuration call supplies, if it is a `set_extrinsic`. -/
def Config.extrinsic? : Config → Option (M3 × V3)
  | .extrinsic t r => some (r, t)
  | .extrinsic_transl t => some (M3.eye, t)
  | _ => none

/-- The extrinsic `(R, T)` last given to `set_extrinsic` in a sequence of configuration
calls on a new object; the constructor's `(Eye3d, Zero3d)` if there is none. -/
def lastExtrinsic (cfgs : List Config) : M3 × V3 :=
  ((cfgs.filterMap Config.extrinsic?).getLast?).getD (M3.eye, V3.zero)

/-! ## `IMU_init` -/

/-- One iteration of the accumulation loop of `IMU_init` (the body of
`for (const auto &imu : meas.imu)`), `N` being `init_iter_num`. -/
def initStep (c : ImuProcess) (imu : Imu) : ImuProcess :=
  let cur_acc := imu.linear_acceleration
  let cur_gyr := imu.angular_velocity
  let N : ℚ := c.init_iter_num
  let mean_acc := c.mean_acc.add ((cur_acc.sub c.mean_acc).divS N)
  let mean_gyr := c.mean_gyr.add ((cur_gyr.sub c.mean_gyr).divS N)
  let cov_acc := (((c.cov_acc.mulS (N - 1)).divS N).add
    ((((cur_acc.sub mean_acc).cwiseProduct (cur_acc.sub mean_acc)).mulS (N - 1)).divS (N * N)))
  let cov_gyr := (((c.cov_gyr.mulS (N - 1)).divS N).add
    ((((cur_gyr.sub mean_gyr).cwiseProduct (cur_gyr.sub mean_gyr)).mulS (N - 1)).divS (N * N)))
  { c with
    mean_acc := mean_acc
    mean_gyr := mean_gyr
    cov_acc := cov_acc
    cov_gyr := cov_gyr
    init_iter_num := c.init_iter_num + 1 }

/-- The first-frame branch of `IMU_init` (`if (b_first_frame_)`). -/
def initFirstFrame (c : ImuProcess) (meas : MeasureGroup) : Option ImuProcess :=
  if c.b_first_frame_ then
    match meas.imu.head? with
    | none => none
    | some front =>
      some { Reset c with
        init_iter_num := 1
        b_first_frame_ := false
        mean_acc := front.linear_acceleration
        mean_gyr := front.angular_velocity
        first_lidar_time := meas.lidar_beg_time }
  else some c

/-- The state seeded by `IMU_init`: a copy of `get_x()` with `grav`, `bg` and the extrinsic
assigned. -/
def initState (ext : Ext) (c : ImuProcess) (x : state_ikfom) : state_ikfom :=
  { x with
    grav := S2 (((c.mean_acc.neg).divS (ext.norm c.mean_acc)).mulS G_m_s2)
    bg := c.mean_gyr
    offset_T_L_I := c.Lidar_T_wrt_IMU
    offset_R_L_I := c.Lidar_R_wrt_IMU }

/-- The covariance seeded by `IMU_init`: `setIdentity()` on a copy of `get_P()`, then the
listed diagonal assignments (a chained assignment assigns its rightmost entry first). -/
def initCov (_P : Mat 23) : Mat 23 :=
  let P0 : Mat 23 := 1
  let P1 := setDiag (setDiag (setDiag P0 8 (1 / 100000)) 7 (1 / 100000)) 6 (1 / 100000)
  let P2 := setDiag (setDiag (setDiag P1 11 (1 / 100000)) 10 (1 / 100000)) 9 (1 / 100000)
  let P3 := setDiag (setDiag (setDiag P2 17 (1 / 10000)) 16 (1 / 10000)) 15 (1 / 10000)
  let P4 := setDiag (setDiag (setDiag P3 20 (1 / 1000)) 19 (1 / 1000)) 18 (1 / 1000)
  setDiag (setDiag P4 22 (1 / 100000)) 21 (1 / 100000)

/-- The member `ImuProcess::IMU_init`, with `N` bound to `init_iter_num`. -/
def IMU_init (ext : Ext) (c : ImuProcess) (meas : MeasureGroup) (kf : esekf) :
    Option (ImuProcess × esekf) :=
  match initFirstFrame c meas with
  | none => none
  | some c1 =>
    let c2 := meas.imu.foldl initStep c1
    let init_state := initState ext c2 kf.x
    let init_P := initCov kf.P
    match meas.imu.getLast? with
    | none => none
    | some back => some ({ c2 with last_imu_ := back }, { x := init_state, P := init_P })

/-! ## `UndistortPcl` -/

/-- Loop state of the forward pass: the object, the filter, the local `in`, and the trace of
`predict` calls made so far. -/
structure Fwd where
  core : ImuProcess
  kf : esekf
  inp : input_ikfom
  calls : List PredictCall

/-- One iteration of the forward loop on the pair `(head, tail)`. -/
def forwardStep (ext : Ext) (pcl_beg_time : ℚ) (head tail : Imu) (s : Fwd) : Fwd :=
  if tail.stamp < s.core.last_lidar_end_time_ then s
  else
    let angvel_avr : V3 :=
      ⟨(1 / 2) * (head.angular_velocity.x + tail.angular_velocity.x),
       (1 / 2) * (head.angular_velocity.y + tail.angular_velocity.y),
       (1 / 2) * (head.angular_velocity.z + tail.angular_velocity.z)⟩
    let acc_avr0 : V3 :=
      ⟨(1 / 2) * (head.linear_acceleration.x + tail.linear_acceleration.x),
       (1 / 2) * (head.linear_acceleration.y + tail.linear_acceleration.y),
       (1 / 2) * (head.linear_acceleration.z + tail.linear_acceleration.z)⟩
    let acc_avr := (acc_avr0.mulS G_m_s2).divS (ext.norm s.core.mean_acc)
    let dt : ℚ :=
      if head.stamp < s.core.last_lidar_end_time_ then tail.stamp - s.core.last_lidar_end_time_
      else tail.stamp - head.stamp
    let inp : input_ikfom := { acc := acc_avr, gyro := angvel_avr }
    let Q := setDiag3 (setDiag3 (setDiag3 (setDiag3 s.core.Q 0 1 2 s.core.cov_gyr)
      3 4 5 s.core.cov_acc) 6 7 8 s.core.cov_bias_gyr) 9 10 11 s.core.cov_bias_acc
    let kf := ext.predict s.kf dt Q inp
    let imu_state := kf.x
    let angvel_last := angvel_avr.sub imu_state.bg
    let acc_s_last := (imu_state.rot.mulVec (acc_avr.sub imu_state.ba)).add imu_state.grav
    let offs_t := tail.stamp - pcl_beg_time
    { core := { s.core with
        Q := Q
        angvel_last := angvel_last
        acc_s_last := acc_s_last
        IMUpose := s.core.IMUpose ++
          [set_pose6d offs_t acc_s_last angvel_last imu_state.vel imu_state.pos imu_state.rot] }
      kf := kf
      inp := inp
      calls := s.calls ++ [⟨dt, Q, inp⟩] }

/-- The forward loop `for (it_imu = v_imu.begin(); it_imu < v_imu.end() - 1; it_imu++)`. -/
def forwardLoop (ext : Ext) (pcl_beg_time : ℚ) : List Imu → Fwd → Fwd
  | head :: tail :: rest, s =>
    forwardLoop ext pcl_beg_time (tail :: rest) (forwardStep ext pcl_beg_time head tail s)
  | _, s => s

/-- The body of the inner backward loop: the compensated copy of the point `p`. -/
def compensate (ext : Ext) (imu_state : state_ikfom) (head tail : Pose6D) (p : PointType) :
    PointType :=
  let dt := p.curvature / 1000 - head.offset_time
  let R_i := head.rot.mul (ext.Exp tail.gyr dt)
  let P_i : V3 := ⟨p.x, p.y, p.z⟩
  let T_ei := (((head.pos.add (head.vel.mulS dt)).add
    (((tail.acc.mulS (1 / 2)).mulS dt).mulS dt)).sub imu_state.pos)
  let P_compensate := imu_state.offset_R_L_I.transpose.mulVec
    ((imu_state.rot.transpose.mulVec
      ((R_i.mulVec ((imu_state.offset_R_L_I.mulVec P_i).add imu_state.offset_T_L_I)).add T_ei)).sub
      imu_state.offset_T_L_I)
  { p with x := P_compensate.x, y := P_compensate.y, z := P_compensate.z }

/-- The inner backward loop `for (; it_pcl->curvature / 1000 > head->offset_time; it_pcl--)`
with its `break` at `points.begin()`. The cursor `it_pcl` is an index into the points;
the result is the cursor and the points on leaving the loop, `none` if the cursor is
dereferenced outside the points. -/
def pointLoop (ext : Ext) (imu_state : state_ikfom) (head tail : Pose6D) :
    Nat → List PointType → Option (Nat × List PointType)
  | 0, pts =>
    match pts[0]? with
    | none => none
    | some p =>
      if p.curvature / 1000 > head.offset_time then
        some (0, pts.set 0 (compensate ext imu_state head tail p))
      else some (0, pts)
  | j + 1, pts =>
    match pts[j + 1]? with
    | none => none
    | some p =>
      if p.curvature / 1000 > head.offset_time then
        pointLoop ext imu_state head tail j (pts.set (j + 1) (compensate ext imu_state head tail p))
      else some (j + 1, pts)

/-- The outer backward loop `for (it_kp = IMUpose.end() - 1; it_kp != IMUpose.begin(); it_kp--)`,
`k` being the index of `it_kp`; `none` if a waypoint or a point is read outside its
container. -/
def poseLoop (ext : Ext) (imu_state : state_ikfom) (poses : List Pose6D) :
    Nat → Nat → List PointType → Option (List PointType)
  | 0, _, pts => some pts
  | k + 1, i, pts =>
    match poses[k]?, poses[k + 1]? with
    | some head, some tail =>
      match pointLoop ext imu_state head tail i pts with
      | none => none
      | some (i1, pts1) => poseLoop ext imu_state poses k i1 pts1
    | _, _ => none

/-- What a call leaves behind: the object, the filter, the output cloud, and the trace of
`predict` calls it made. -/
structure Out where
  core : ImuProcess
  kf : esekf
  pcl : PointCloudXYZI
  calls : List PredictCall

/-- The state of the forward pass when the loop is entered: points sorted aside, `IMUpose`
cleared and seeded with the waypoint at offset 0. -/
def forwardInit (ext : Ext) (c : ImuProcess) (kf : esekf) : Fwd :=
  let imu_state := kf.x
  { core := { c with
      IMUpose := [set_pose6d 0 c.acc_s_last c.angvel_last imu_state.vel imu_state.pos
        imu_state.rot] }
    kf := kf
    inp := ext.input_default
    calls := [] }

/-- The forward pass of `UndistortPcl`: the loop run over `v_imu`, which is `meas.imu` with
`last_imu_` pushed in front. -/
def forwardPass (ext : Ext) (c : ImuProcess) (meas : MeasureGroup) (kf : esekf) : Fwd :=
  forwardLoop ext meas.lidar_beg_time (c.last_imu_ :: meas.imu) (forwardInit ext c kf)

/-- The interval of the last `predict` of `UndistortPcl`:
`note = pcl_end_time > imu_end_time ? 1.0 : -1.0; dt = note * (pcl_end_time - imu_end_time)`. -/
def finalDt (pcl_end_time imu_end_time : ℚ) : ℚ :=
  let note : ℚ := if pcl_end_time > imu_end_time then 1 else -1
  note * (pcl_end_time - imu_end_time)

/-- The member `ImuProcess::UndistortPcl`. -/
def UndistortPcl (ext : Ext) (c : ImuProcess) (meas : MeasureGroup) (kf : esekf) : Option Out :=
  let v_imu := c.last_imu_ :: meas.imu
  let imu_end_time := (v_imu.getLast (List.cons_ne_nil _ _)).stamp
  let pcl_end_time := meas.lidar_end_time
  let pcl_out := ext.sort meas.lidar
  let s := forwardPass ext c meas kf
  let dt := finalDt pcl_end_time imu_end_time
  let kf1 := ext.predict s.kf dt s.core.Q s.inp
  let calls := s.calls ++ [⟨dt, s.core.Q, s.inp⟩]
  let imu_state := kf1.x
  match meas.imu.getLast? with
  | none => none
  | some back =>
    let c1 := { s.core with last_imu_ := back, last_lidar_end_time_ := pcl_end_time }
    if pcl_out = [] then some ⟨c1, kf1, pcl_out, calls⟩
    else
      match poseLoop ext imu_state c1.IMUpose (c1.IMUpose.length - 1) (pcl_out.length - 1)
          pcl_out with
      | none => none
      | some pts => some ⟨c1, kf1, pts, calls⟩

/-! ## `Process` -/

/-- The block of `Process` run after `IMU_init` (`imu_need_init_ = true; last_imu_ = …;
if (init_iter_num > MAX_INI_COUNT) …`). -/
def initFinish (ext : Ext) (c : ImuProcess) (back : Imu) : ImuProcess :=
  let c1 := { c with imu_need_init_ := true, last_imu_ := back }
  if c1.init_iter_num > MAX_INI_COUNT then
    let c2 := { c1 with
      cov_acc := c1.cov_acc.mulS ((G_m_s2 / ext.norm c1.mean_acc) ^ 2)
      imu_need_init_ := false }
    { c2 with cov_acc := c2.cov_acc_scale, cov_gyr := c2.cov_gyr_scale, fout_imu := true }
  else c1

/-- The member `ImuProcess::Process`; `pcl_un` is the cloud behind the handle `cur_pcl_un_`
the caller passes. -/
def Process (ext : Ext) (c : ImuProcess) (meas : MeasureGroup) (kf : esekf)
    (pcl_un : PointCloudXYZI) : Option Out :=
  if meas.imu = [] then some ⟨c, kf, pcl_un, []⟩
  else if c.imu_need_init_ then
    match IMU_init ext c meas kf with
    | none => none
    | some (c1, kf1) =>
      match meas.imu.getLast? with
      | none => none
      | some back => some ⟨initFinish ext c1 back, kf1, pcl_un, []⟩
  else UndistortPcl ext c meas kf

/-- A sequence of `Process` calls on the same filter and cloud handle, first group first;
the trace is that of all calls. -/
def processAll (ext : Ext) : Out → List MeasureGroup → Option Out
  | o, [] => some o
  | o, m :: ms =>
    match Process ext o.core m o.kf o.pcl with
    | none => none
    | some o1 => processAll ext { o1 with calls := o.calls ++ o1.calls } ms

/-- All IMU samples of a sequence of groups, in order of arrival. -/
def allImu : List MeasureGroup → List Imu
  | [] => []
  | m :: ms => m.imu ++ allImu ms

/-! ## Spec-side notions used in the statements -/

/-- Sum of a list of vectors. -/
def vsum : List V3 → V3
  | [] => V3.zero
  | v :: vs => v.add (vsum vs)

/-- Arithmetic mean of a list of vectors. -/
def vmean (l : List V3) : V3 := (vsum l).divS l.length

/-- A point's two channels that the backward pass must not touch are kept, and a point
selected by `keep` is left as it is. -/
def PointRel (keep : PointType → Prop) (p q : PointType) : Prop :=
  q.curvature = p.curvature ∧ q.intensity = p.intensity ∧ (keep p → q = p)

/-- Two clouds of the same size related point by point through `PointRel`. -/
def CloudRel (keep : PointType → Prop) (pts qts : List PointType) : Prop :=
  qts.length = pts.length ∧
    ∀ (j : Nat) (p : PointType), pts[j]? = some p → ∃ q, qts[j]? = some q ∧ PointRel keep p q

/-- The running-mean invariant of the accumulation loop after the samples `pre`:
the counter is one more than the number of samples, and the means are their arithmetic
means. -/
def MeanInv (pre : List Imu) (c : ImuProcess) : Prop :=
  c.init_iter_num = pre.length + 1 ∧
    (pre ≠ [] →
      c.mean_acc = vmean (pre.map Imu.linear_acceleration) ∧
      c.mean_gyr = vmean (pre.map Imu.angular_velocity))

/-- The configuration members of two object states agree. -/
def SameConfig (c d : ImuProcess) : Prop :=
  d.Lidar_R_wrt_IMU = c.Lidar_R_wrt_IMU ∧ d.Lidar_T_wrt_IMU = c.Lidar_T_wrt_IMU ∧
    d.cov_acc_scale = c.cov_acc_scale ∧ d.cov_gyr_scale = c.cov_gyr_scale ∧
    d.cov_bias_gyr = c.cov_bias_gyr ∧ d.cov_bias_acc = c.cov_bias_acc

/-- State of an initialising run that has consumed the samples `pre`, started with the
filter `kf0`: the running means are those of `pre`, and once a sample has been consumed the
filter holds the seed computed from the object. -/
def InitInv (ext : Ext) (kf0 : esekf) (pre : List Imu) (c : ImuProcess) (kf : esekf) : Prop :=
  MeanInv pre c ∧ (pre = [] → kf = kf0) ∧
    (pre ≠ [] → c.b_first_frame_ = false ∧ kf.x = initState ext c kf0.x ∧ kf.P = initCov kf0.P)

/-- The coordinates `P_Lᵀ·(x.rotᵀ·(head.rot·(P_L·p + T_L) + head.pos − x.pos) − T_L)` that a
compensation from the waypoint `head` with `Δt = 0` would give the point `p`, `x` being the
posterior state at sweep end. -/
def compensatedAtHead (x : state_ikfom) (head : Pose6D) (p : PointType) : V3 :=
  x.offset_R_L_I.transpose.mulVec
    ((x.rot.transpose.mulVec
      (((head.rot.mulVec ((x.offset_R_L_I.mulVec ⟨p.x, p.y, p.z⟩).add x.offset_T_L_I)).add
        head.pos).sub x.pos)).sub x.offset_T_L_I)

/-- States an object can be in: constructed, then any sequence of configuration calls,
`Reset()` calls and `Process` calls (on any group, filter and cloud) that return. -/
inductive Reachable (ext : Ext) : ImuProcess → Prop
  | ctor (u : Unassigned) : Reachable ext (ImuProcess.ctor ext u)
  | config (c : ImuProcess) (cfg : Config) : Reachable ext c → Reachable ext (cfg.apply c)
  | reset (c : ImuProcess) : Reachable ext c → Reachable ext (Reset c)
  | process (c : ImuProcess) (meas : MeasureGroup) (kf : esekf) (pcl : PointCloudXYZI)
      (o : Out) : Reachable ext c → Process ext c meas kf pcl = some o → Reachable ext o.core

/-- The diagonal that `IMU_init` seeds, by index of the 23-dimensional error state. -/
def seededDiag (i : Fin 23) : ℚ :=
  if 6 ≤ i.val ∧ i.val ≤ 11 then 1 / 100000
  else if 15 ≤ i.val ∧ i.val ≤ 17 then 1 / 10000
  else if 18 ≤ i.val ∧ i.val ≤ 20 then 1 / 1000
  else if 21 ≤ i.val ∧ i.val ≤ 22 then 1 / 100000
  else 1

/-! ## Concrete collaborators and inputs for closed evaluations -/

/-- Modelled from the spec: `Exp` of `so3_math.h` is not part of the source; the spec names
it the SO(3) exponential map. This rational stand-in is its first-order expansion
`I + [ω·dt]×`, which is exact when `ω·dt = 0`; it is used only in evaluations whose angular
rates are zero. -/
def ExpFirstOrder (w : V3) (dt : ℚ) : M3 :=
  ⟨⟨1, -(w.z * dt), w.y * dt⟩, ⟨w.z * dt, 1, -(w.x * dt)⟩, ⟨-(w.y * dt), w.x * dt, 1⟩⟩

/-- Modelled from the spec: `esekf::predict` is not part of the source; this is the nominal
state update of the spec's predict step (bias-corrected input, world-frame acceleration,
then `pos`, `vel`, `rot`); the covariance, whose Jacobians the spec does not spell out, is
left as it is. -/
def predictNominal (kf : esekf) (dt : ℚ) (_Q : Mat 12) (u : input_ikfom) : esekf :=
  let x := kf.x
  let w := u.gyro.sub x.bg
  let a := u.acc.sub x.ba
  let a_w := (x.rot.mulVec a).add x.grav
  { kf with x := { x with
      pos := (x.pos.add (x.vel.mulS dt)).add ((a_w.mulS (1 / 2)).mulS (dt * dt))
      vel := x.vel.add (a_w.mulS dt)
      rot := x.rot.mul (ExpFirstOrder w dt) } }

/-- Rational stand-in for Eigen's `norm()`: the sum of the absolute values of the
components, which is the Euclidean norm of a vector along a coordinate axis. -/
def normAxis (v : V3) : ℚ := |v.x| + |v.y| + |v.z|

/-- A sort by `curvature`, one admissible outcome of `std::sort` with `time_list`. -/
def sortByTime (pts : PointCloudXYZI) : PointCloudXYZI :=
  pts.insertionSort (fun a b => a.curvature ≤ b.curvature)

/-- The collaborators used in closed evaluations. -/
def refExt : Ext where
  predict := predictNominal
  Exp := ExpFirstOrder
  norm := normAxis
  sort := sortByTime
  process_noise_cov := 0
  input_default := ⟨V3.zero, V3.zero⟩

/-- Values for the unassigned members of a new object (all zero). -/
def demoUnassigned : Unassigned := ⟨V3.zero, V3.zero, V3.zero, 0, 0⟩

/-- A new object. -/
def demoCold : ImuProcess := ImuProcess.ctor refExt demoUnassigned

/-- A filter as it may be handed to INIT: at the origin, moving along x at 1 m/s, with a
non-zero accelerometer bias, a unit vector for gravity and a zero covariance. -/
def demoKf : esekf where
  x := { pos := V3.zero, rot := M3.eye, offset_R_L_I := M3.eye, offset_T_L_I := V3.zero,
         vel := ⟨1, 0, 0⟩, bg := V3.zero, ba := ⟨1, 0, 0⟩, grav := ⟨0, 0, -1⟩ }
  P := 0

/-- A stationary IMU sample stamped `t`: no rotation, specific force `(0, 0, 9.81)`. -/
def demoImu (t : ℚ) : Imu := ⟨t, V3.zero, ⟨0, 0, 981 / 100⟩⟩

/-- A group with one stationary sample and no points. -/
def demoGroup1 : MeasureGroup := ⟨0, 1 / 10, [], [demoImu (1 / 100)]⟩

/-- A group with ten stationary samples at 100 Hz and no points. -/
def demoGroup10 : MeasureGroup :=
  ⟨0, 1 / 10, [], (List.range 10).map (fun k => demoImu ((k + 1 : ℚ) / 100))⟩

/-- A group with no IMU sample and one point. -/
def demoGroupNoImu : MeasureGroup := ⟨0, 1 / 10, [⟨1, 2, 3, 4, 5⟩], []⟩

/-- A primed object: INIT done on stationary samples, previous sweep ended at time 1, last
retained sample stamped 1. -/
def demoPrimed : ImuProcess :=
  { demoCold with
    imu_need_init_ := false
    b_first_frame_ := false
    init_iter_num := 11
    mean_acc := ⟨0, 0, 981 / 100⟩
    last_imu_ := demoImu 1
    last_lidar_end_time_ := 1 }

/-- A filter at the origin with identity attitude, moving along x at 1 m/s, no biases,
gravity along −z. -/
def demoKfMoving : esekf where
  x := { pos := V3.zero, rot := M3.eye, offset_R_L_I := M3.eye, offset_T_L_I := V3.zero,
         vel := ⟨1, 0, 0⟩, bg := V3.zero, ba := V3.zero, grav := ⟨0, 0, -981 / 100⟩ }
  P := 0

/-- A sweep from 1 to 2 whose last IMU sample (stamped 3) is later than the sweep end;
two points given out of time order. -/
def demoSweepShort : MeasureGroup :=
  ⟨1, 2, [⟨1, 0, 0, 7, 500⟩, ⟨2, 0, 0, 8, 0⟩], [demoImu (3 / 2), demoImu 3]⟩

/-- A sweep from 1 to 2 with IMU samples at 3/2 and 2 and two points, the first with time
offset 0. -/
def demoSweep : MeasureGroup :=
  ⟨1, 2, [⟨2, 0, 0, 8, 0⟩, ⟨1, 0, 0, 7, 500⟩], [demoImu (3 / 2), demoImu 2]⟩

/-- A second primed object whose previous sweep ended at time 1 and whose retained sample,
stamped 1/2, reads a rotation rate of 1 rad/s about x. -/
def demoPrimedStale : ImuProcess :=
  { demoPrimed with last_imu_ := ⟨1 / 2, ⟨1, 0, 0⟩, ⟨0, 0, 981 / 100⟩⟩ }

/-- A sweep from 1 to 2 that starts with two samples stamped before 1 (stale). -/
def demoSweepStale : MeasureGroup :=
  ⟨1, 2, [], [demoImu (7 / 10), demoImu (9 / 10), demoImu (3 / 2), demoImu 2]⟩

/-- The sweep `demoSweepStale` with its two stale samples removed. -/
def demoSweepFresh : MeasureGroup :=
  ⟨1, 2, [], [demoImu (3 / 2), demoImu 2]⟩

/-! ## Further notions and inputs for the statements -/

/-- The diagonal of the gyro block (indices 0 to 2) of `Q` is `cov_gyr` and that of the accel
block (indices 3 to 5) is `cov_acc`. -/
def QBlocks (Q : Mat 12) (cov_gyr cov_acc : V3) : Prop :=
  Q 0 0 = cov_gyr.x ∧ Q 1 1 = cov_gyr.y ∧ Q 2 2 = cov_gyr.z ∧
    Q 3 3 = cov_acc.x ∧ Q 4 4 = cov_acc.y ∧ Q 5 5 = cov_acc.z

/-- The members that the accumulation of `IMU_init` reads and writes agree in two object
states, together with the flags and the configuration. -/
def InitAgree (c d : ImuProcess) : Prop :=
  d.mean_acc = c.mean_acc ∧ d.mean_gyr = c.mean_gyr ∧ d.cov_acc = c.cov_acc ∧
    d.cov_gyr = c.cov_gyr ∧ d.init_iter_num = c.init_iter_num ∧
    d.imu_need_init_ = c.imu_need_init_ ∧ d.b_first_frame_ = c.b_first_frame_ ∧
    SameConfig c d

/-- The waypoint pair `(head, tail)` that brackets the offset time `t`: the first consecutive
pair with `head.offset_time < t ≤ tail.offset_time`. -/
def bracketPair : List Pose6D → ℚ → Option (Pose6D × Pose6D)
  | head :: tail :: rest, t =>
    if head.offset_time < t ∧ t ≤ tail.offset_time then some (head, tail)
    else bracketPair (tail :: rest) t
  | _, _ => none

/-- The backward pass as the spec words it: every point whose offset time is bracketed by a
consecutive waypoint pair is compensated once, with that pair; other points are left. -/
def bracketCompensate (ext : Ext) (x : state_ikfom) (poses : List Pose6D)
    (pts : List PointType) : List PointType :=
  pts.map (fun p =>
    match bracketPair poses (p.curvature / 1000) with
    | some (head, tail) => compensate ext x head tail p
    | none => p)

/-- Per-axis sample variance `(1/n)·Σ(x_i − mean_n)²` of a list of vectors. -/
def vvar (l : List V3) : V3 :=
  (vsum (l.map (fun v => (v.sub (vmean l)).cwiseProduct (v.sub (vmean l))))).divS l.length

/-- A sweep from 2 to 3 that follows a sweep ended at 1; its first IMU sample, stamped 3/2,
lies between the two sweeps. -/
def demoSweepGap : MeasureGroup :=
  ⟨2, 3, [], [demoImu (3 / 2), demoImu (5 / 2), demoImu 3]⟩

/-- A sweep from 6/5 to 2 with one IMU sample, stamped 3/2, and one point at the origin with
time offset 500 ms, later than the only sample. -/
def demoSweepLate : MeasureGroup :=
  ⟨6 / 5, 2, [⟨0, 0, 0, 7, 500⟩], [demoImu (3 / 2)]⟩

/-- A sweep from 1 to 2 with IMU samples at 3/2 and 2 and two points with time offsets 600 ms
and 800 ms, both between the two samples. -/
def demoSweepTwo : MeasureGroup :=
  ⟨1, 2, [⟨1, 0, 0, 7, 600⟩, ⟨2, 0, 0, 8, 800⟩], [demoImu (3 / 2), demoImu 2]⟩

/-- A sweep from 1 to 2 with IMU samples at 3/2 and 2 and two points that share the time
offset 600 ms. -/
def demoSweepTie : MeasureGroup :=
  ⟨1, 2, [⟨1, 0, 0, 7, 600⟩, ⟨2, 0, 0, 8, 600⟩], [demoImu (3 / 2), demoImu 2]⟩

/-- The sweep `demoSweepTie` with its two points exchanged. -/
def demoSweepTieSwapped : MeasureGroup :=
  ⟨1, 2, [⟨2, 0, 0, 8, 600⟩, ⟨1, 0, 0, 7, 600⟩], [demoImu (3 / 2), demoImu 2]⟩

/-- A group with two IMU samples whose accelerometer readings along x are 0 and 2. -/
def demoGroupSpread : MeasureGroup :=
  ⟨0, 1 / 10, [], [⟨1 / 100, V3.zero, ⟨0, 0, 981 / 100⟩⟩, ⟨2 / 100, V3.zero, ⟨2, 0, 981 / 100⟩⟩]⟩

/-! ## Lemmas on the accumulation loop of `IMU_init` -/

theorem vsum_append_singleton (l : List V3) (s : V3) : vsum (l ++ [s]) = (vsum l).add s := by
  induction l with
  | nil => ext <;> simp [vsum, V3.add, V3.zero]
  | cons a l ih =>
    rw [List.cons_append, vsum, ih, vsum]
    ext <;> simp [V3.add] <;> ring

theorem mean_step (pre : List V3) (m s : V3) (h : pre ≠ [] → m = vmean pre) :
    m.add ((s.sub m).divS ((pre.length + 1 : ℕ) : ℚ)) = vmean (pre ++ [s]) := by
  unfold vmean
  rw [vsum_append_singleton]
  rcases pre with _ | ⟨a, l⟩
  · ext <;> simp [vsum, V3.add, V3.sub, V3.divS, V3.zero]
  · have hm := h (List.cons_ne_nil _ _)
    have hk : ((l.length : ℚ) + 1) ≠ 0 := by positivity
    have hk2 : ((l.length : ℚ) + 1 + 1) ≠ 0 := by positivity
    subst hm
    ext <;> simp [vmean, V3.add, V3.sub, V3.divS] <;> field_simp <;> ring

theorem initStep_MeanInv (pre : List Imu) (c : ImuProcess) (s : Imu) (h : MeanInv pre c) :
    MeanInv (pre ++ [s]) (initStep c s) := by
  obtain ⟨hN, hm⟩ := h
  refine ⟨by simp [initStep, hN], fun _ => ?_⟩
  have e1 := mean_step (pre.map Imu.linear_acceleration) c.mean_acc s.linear_acceleration
    (fun hne => (hm (by simpa using hne)).1)
  have e2 := mean_step (pre.map Imu.angular_velocity) c.mean_gyr s.angular_velocity
    (fun hne => (hm (by simpa using hne)).2)
  simp only [List.length_map] at e1 e2
  simp only [initStep, hN, List.map_append, List.map_cons, List.map_nil]
  exact ⟨e1, e2⟩

theorem foldl_initStep_MeanInv (l : List Imu) :
    ∀ (pre : List Imu) (c : ImuProcess), MeanInv pre c →
      MeanInv (pre ++ l) (l.foldl initStep c) := by
  induction l with
  | nil => intro pre c h; simpa using h
  | cons s l ih =>
    intro pre c h
    have := ih (pre ++ [s]) (initStep c s) (initStep_MeanInv pre c s h)
    simpa using this

theorem foldl_initStep_frame (l : List Imu) :
    ∀ c : ImuProcess, SameConfig c (l.foldl initStep c) ∧
      (l.foldl initStep c).b_first_frame_ = c.b_first_frame_ ∧
      (l.foldl initStep c).imu_need_init_ = c.imu_need_init_ := by
  induction l with
  | nil => intro c; simp [SameConfig]
  | cons s l ih =>
    intro c
    obtain ⟨⟨h1, h2, h3, h4, h5, h6⟩, h7, h8⟩ := ih (initStep c s)
    simp only [List.foldl_cons]
    refine ⟨⟨?_, ?_, ?_, ?_, ?_, ?_⟩, ?_, ?_⟩ <;> simp_all [initStep]

/-! ## Lemmas on `IMU_init` and the initialising branch of `Process` -/

theorem SameConfig_trans {a b c : ImuProcess} (h1 : SameConfig a b) (h2 : SameConfig b c) :
    SameConfig a c := by
  unfold SameConfig at h1 h2 ⊢
  refine ⟨?_, ?_, ?_, ?_, ?_, ?_⟩
  · rw [h2.1, h1.1]
  · rw [h2.2.1, h1.2.1]
  · rw [h2.2.2.1, h1.2.2.1]
  · rw [h2.2.2.2.1, h1.2.2.2.1]
  · rw [h2.2.2.2.2.1, h1.2.2.2.2.1]
  · rw [h2.2.2.2.2.2, h1.2.2.2.2.2]

theorem initFirstFrame_spec (c : ImuProcess) (meas : MeasureGroup) (hne : meas.imu ≠ []) :
    ∃ c1, initFirstFrame c meas = some c1 ∧ SameConfig c c1 ∧ c1.b_first_frame_ = false ∧
      (c.b_first_frame_ = true → c1.init_iter_num = 1) ∧
      (c.b_first_frame_ = false → c1 = c) := by
  unfold initFirstFrame
  cases hb : c.b_first_frame_ with
  | false => exact ⟨c, by simp, by simp [SameConfig], hb, by simp, by simp⟩
  | true =>
    cases hi : meas.imu with
    | nil => exact absurd hi hne
    | cons a l =>
      simp only [List.head?_cons, if_true]
      exact ⟨_, rfl, by simp [SameConfig, Reset], rfl, fun _ => rfl, by simp⟩

theorem initFinish_fields (ext : Ext) (c : ImuProcess) (back : Imu) :
    (initFinish ext c back).init_iter_num = c.init_iter_num ∧
    (initFinish ext c back).mean_acc = c.mean_acc ∧
    (initFinish ext c back).mean_gyr = c.mean_gyr ∧
    (initFinish ext c back).b_first_frame_ = c.b_first_frame_ ∧
    SameConfig c (initFinish ext c back) ∧
    ((initFinish ext c back).imu_need_init_ = true ↔ c.init_iter_num ≤ MAX_INI_COUNT) := by
  unfold initFinish
  by_cases h : MAX_INI_COUNT < c.init_iter_num
  · simp [h, SameConfig]
  · simp [h, SameConfig, Nat.le_of_not_lt h]

theorem getLast_some_of_ne_nil {α : Type} (l : List α) (h : l ≠ []) : ∃ b, l.getLast? = some b := by
  cases hl : l.getLast? with
  | none => exact absurd (List.getLast?_eq_none_iff.mp hl) h
  | some b => exact ⟨b, rfl⟩

theorem Process_init_eq (ext : Ext) (c : ImuProcess) (meas : MeasureGroup) (kf : esekf)
    (pcl : PointCloudXYZI) (hne : meas.imu ≠ []) (hinit : c.imu_need_init_ = true) :
    ∃ c1 back, initFirstFrame c meas = some c1 ∧ meas.imu.getLast? = some back ∧
      Process ext c meas kf pcl =
        some ⟨initFinish ext { meas.imu.foldl initStep c1 with last_imu_ := back } back,
          ⟨initState ext (meas.imu.foldl initStep c1) kf.x, initCov kf.P⟩, pcl, []⟩ := by
  obtain ⟨c1, h1, -⟩ := initFirstFrame_spec c meas hne
  obtain ⟨back, hb⟩ := getLast_some_of_ne_nil meas.imu hne
  refine ⟨c1, back, h1, hb, ?_⟩
  simp [Process, hne, hinit, IMU_init, h1, hb]

theorem Process_init_step (ext : Ext) (kf0 : esekf) (pre : List Imu) (c : ImuProcess)
    (meas : MeasureGroup) (kf : esekf) (pcl : PointCloudXYZI)
    (hinv : InitInv ext kf0 pre c kf) (hinit : c.imu_need_init_ = true)
    (hpre : pre.length < MAX_INI_COUNT) :
    ∃ o, Process ext c meas kf pcl = some o ∧ InitInv ext kf0 (pre ++ meas.imu) o.core o.kf ∧
      SameConfig c o.core ∧ o.pcl = pcl ∧ o.calls = [] ∧
      (o.core.imu_need_init_ = true ↔ (pre ++ meas.imu).length < MAX_INI_COUNT) := by
  by_cases hne : meas.imu = []
  · refine ⟨⟨c, kf, pcl, []⟩, by simp [Process, hne], by simpa [hne] using hinv,
      by simp [SameConfig], rfl, rfl, by simp [hne, hinit, hpre]⟩
  · obtain ⟨c1, back, h1, -, hP⟩ := Process_init_eq ext c meas kf pcl hne hinit
    obtain ⟨c1', h1', hcfg1, hff1, hiter1, hsame1⟩ := initFirstFrame_spec c meas hne
    rw [h1] at h1'
    cases h1'
    obtain ⟨hmean, hkf0, hseed⟩ := hinv
    have hM1 : MeanInv pre c1 := by
      cases hb : c.b_first_frame_ with
      | false => rw [hsame1 hb]; exact hmean
      | true =>
        have hp : pre = [] := by
          by_contra hp
          have := (hseed hp).1
          rw [hb] at this
          exact absurd this (by simp)
        subst hp
        exact ⟨by simp [hiter1 hb], fun h => absurd rfl h⟩
    have hM2 := foldl_initStep_MeanInv meas.imu pre c1 hM1
    obtain ⟨hcfg2, hff2, hni2⟩ := foldl_initStep_frame meas.imu c1
    obtain ⟨f1, f2, f3, f4, f5, f6⟩ :=
      initFinish_fields ext { meas.imu.foldl initStep c1 with last_imu_ := back } back
    refine ⟨_, hP, ⟨⟨?_, ?_⟩, ?_, ?_⟩, ?_, rfl, rfl, ?_⟩
    · simp only [f1]; exact hM2.1
    · intro h
      simp only [f2, f3]
      exact hM2.2 h
    · intro h
      exact absurd (List.append_eq_nil.mp h).2 hne
    · intro _
      refine ⟨by simp only [f4]; rw [hff2, hff1], ?_, rfl⟩
      obtain ⟨g1, g2, -⟩ := f5
      by_cases hp : pre = []
      · rw [hkf0 hp]
        simp only [initState, f2, f3, g1, g2]
      · rw [(hseed hp).2.1]
        simp only [initState, f2, f3, g1, g2]
    · exact SameConfig_trans hcfg1 (SameConfig_trans hcfg2 f5)
    · rw [f6]
      have := hM2.1
      simp only [] at this ⊢
      rw [this]
      omega

/-! ## Lemmas on the backward pass -/

theorem PointRel_refl (keep : PointType → Prop) (p : PointType) : PointRel keep p p :=
  ⟨rfl, rfl, fun _ => rfl⟩

theorem CloudRel_refl (keep : PointType → Prop) (pts : List PointType) : CloudRel keep pts pts :=
  ⟨rfl, fun _ p h => ⟨p, h, PointRel_refl keep p⟩⟩

theorem CloudRel_trans {keep : PointType → Prop} {a b c : List PointType}
    (h1 : CloudRel keep a b) (h2 : CloudRel keep b c) : CloudRel keep a c := by
  refine ⟨h2.1.trans h1.1, fun j p hp => ?_⟩
  obtain ⟨q, hq, r1, r2, r3⟩ := h1.2 j p hp
  obtain ⟨r, hr, s1, s2, s3⟩ := h2.2 j q hq
  refine ⟨r, hr, s1.trans r1, s2.trans r2, fun hk => ?_⟩
  have hqp := r3 hk
  rw [s3 (hqp ▸ hk), hqp]

theorem CloudRel_set {keep : PointType → Prop} {pts : List PointType} {i : Nat}
    {p q : PointType} (hp : pts[i]? = some p) (hr : PointRel keep p q) :
    CloudRel keep pts (pts.set i q) := by
  refine ⟨List.length_set _ _ _, fun j p1 hp1 => ?_⟩
  by_cases hij : i = j
  · subst hij
    have hlt : i < pts.length := (List.getElem?_eq_some.mp hp).1
    rw [hp] at hp1
    cases hp1
    exact ⟨q, List.getElem?_set_self hlt, hr⟩
  · exact ⟨p1, by rw [List.getElem?_set_ne hij]; exact hp1, PointRel_refl keep p1⟩

theorem compensate_rel (ext : Ext) (x : state_ikfom) (head tail : Pose6D) (p : PointType)
    (keep : PointType → Prop) (hk : ¬ keep p) :
    PointRel keep p (compensate ext x head tail p) :=
  ⟨rfl, rfl, fun h => absurd h hk⟩

theorem pointLoop_spec (ext : Ext) (x : state_ikfom) (head tail : Pose6D)
    (keep : PointType → Prop)
    (hkeep : ∀ p, keep p → p.curvature / 1000 ≤ head.offset_time) :
    ∀ (i : Nat) (pts : List PointType), i < pts.length →
      ∃ i1 pts1, pointLoop ext x head tail i pts = some (i1, pts1) ∧ i1 ≤ i ∧
        CloudRel keep pts pts1 := by
  intro i
  induction i with
  | zero =>
    intro pts hlt
    obtain ⟨p, hp⟩ : ∃ p, pts[0]? = some p := ⟨pts[0], List.getElem?_eq_getElem hlt⟩
    unfold pointLoop
    rw [hp]
    by_cases hc : p.curvature / 1000 > head.offset_time
    · refine ⟨0, pts.set 0 (compensate ext x head tail p), by simp only [hc, if_true],
        le_refl _, ?_⟩
      exact CloudRel_set hp (compensate_rel ext x head tail p keep
        (fun hk => absurd (hkeep p hk) (not_le.mpr hc)))
    · exact ⟨0, pts, by simp only [hc, if_false], le_refl _, CloudRel_refl keep pts⟩
  | succ j ih =>
    intro pts hlt
    obtain ⟨p, hp⟩ : ∃ p, pts[j + 1]? = some p := ⟨pts[j + 1], List.getElem?_eq_getElem hlt⟩
    unfold pointLoop
    rw [hp]
    by_cases hc : p.curvature / 1000 > head.offset_time
    · have hrel := CloudRel_set hp (compensate_rel ext x head tail p keep
        (fun hk => absurd (hkeep p hk) (not_le.mpr hc)))
      obtain ⟨i1, pts1, h1, h2, h3⟩ := ih (pts.set (j + 1) (compensate ext x head tail p))
        (by rw [List.length_set]; omega)
      exact ⟨i1, pts1, by simp only [hc, if_true]; exact h1, by omega, CloudRel_trans hrel h3⟩
    · exact ⟨j + 1, pts, by simp only [hc, if_false], le_refl _, CloudRel_refl keep pts⟩

theorem poseLoop_spec (ext : Ext) (x : state_ikfom) (poses : List Pose6D)
    (keep : PointType → Prop)
    (hkeep : ∀ p, keep p → ∀ pose ∈ poses, p.curvature / 1000 ≤ pose.offset_time) :
    ∀ (k i : Nat) (pts : List PointType), k < poses.length → i < pts.length →
      ∃ pts1, poseLoop ext x poses k i pts = some pts1 ∧ CloudRel keep pts pts1 := by
  intro k
  induction k with
  | zero => intro i pts _ _; exact ⟨pts, rfl, CloudRel_refl keep pts⟩
  | succ k ih =>
    intro i pts hk hi
    have hk0 : k < poses.length := by omega
    obtain ⟨i1, pts1, h1, h2, h3⟩ := pointLoop_spec ext x poses[k] poses[k + 1] keep
      (fun p hp => hkeep p hp _ (List.getElem_mem _)) i pts hi
    obtain ⟨pts2, g1, g2⟩ := ih i1 pts1 hk0 (by rw [h3.1]; omega)
    refine ⟨pts2, ?_, CloudRel_trans h3 g2⟩
    unfold poseLoop
    rw [List.getElem?_eq_getElem hk0, List.getElem?_eq_getElem hk]
    simp only [h1, g1]

/-! ## Lemmas on the forward pass -/

theorem forwardStep_core (ext : Ext) (beg : ℚ) (head tail : Imu) (s : Fwd) :
    (forwardStep ext beg head tail s).core =
      { s.core with
        Q := (forwardStep ext beg head tail s).core.Q
        angvel_last := (forwardStep ext beg head tail s).core.angvel_last
        acc_s_last := (forwardStep ext beg head tail s).core.acc_s_last
        IMUpose := (forwardStep ext beg head tail s).core.IMUpose } := by
  unfold forwardStep
  split <;> rfl

theorem forwardLoop_core (ext : Ext) (beg : ℚ) :
    ∀ (l : List Imu) (s : Fwd),
      (forwardLoop ext beg l s).core =
        { s.core with
          Q := (forwardLoop ext beg l s).core.Q
          angvel_last := (forwardLoop ext beg l s).core.angvel_last
          acc_s_last := (forwardLoop ext beg l s).core.acc_s_last
          IMUpose := (forwardLoop ext beg l s).core.IMUpose } := by
  intro l
  induction l with
  | nil => intro s; rfl
  | cons head l ih =>
    intro s
    cases l with
    | nil => rfl
    | cons tail rest =>
      unfold forwardLoop
      have h1 := ih (forwardStep ext beg head tail s)
      have h2 := forwardStep_core ext beg head tail s
      rw [h1, h2]

theorem forwardStep_offsets (ext : Ext) (beg t : ℚ) (head tail : Imu) (s : Fwd)
    (hs : ∀ pose ∈ s.core.IMUpose, t ≤ pose.offset_time) (ht : t ≤ tail.stamp - beg) :
    ∀ pose ∈ (forwardStep ext beg head tail s).core.IMUpose, t ≤ pose.offset_time := by
  unfold forwardStep
  split
  · exact hs
  · intro pose hp
    simp only [List.mem_append, List.mem_singleton] at hp
    rcases hp with hp | hp
    · exact hs pose hp
    · rw [hp]; exact ht

theorem forwardLoop_offsets (ext : Ext) (beg t : ℚ) :
    ∀ (l : List Imu) (s : Fwd), (∀ pose ∈ s.core.IMUpose, t ≤ pose.offset_time) →
      (∀ tl ∈ l.tail, t ≤ tl.stamp - beg) →
      ∀ pose ∈ (forwardLoop ext beg l s).core.IMUpose, t ≤ pose.offset_time := by
  intro l
  induction l with
  | nil => intro s hs _; exact hs
  | cons head l ih =>
    intro s hs hl
    cases l with
    | nil => exact hs
    | cons tail rest =>
      unfold forwardLoop
      refine ih _ (forwardStep_offsets ext beg t head tail s hs (hl tail (by simp))) ?_
      intro tl htl
      exact hl tl (by simp only [List.tail_cons] at htl ⊢; exact List.mem_cons_of_mem _ htl)

theorem forwardStep_length (ext : Ext) (beg : ℚ) (head tail : Imu) (s : Fwd) :
    s.core.IMUpose.length ≤ (forwardStep ext beg head tail s).core.IMUpose.length := by
  unfold forwardStep
  split
  · exact le_refl _
  · simp

theorem forwardLoop_length (ext : Ext) (beg : ℚ) :
    ∀ (l : List Imu) (s : Fwd),
      s.core.IMUpose.length ≤ (forwardLoop ext beg l s).core.IMUpose.length := by
  intro l
  induction l with
  | nil => intro s; exact le_refl _
  | cons head l ih =>
    intro s
    cases l with
    | nil => exact le_refl _
    | cons tail rest =>
      unfold forwardLoop
      exact le_trans (forwardStep_length ext beg head tail s) (ih _)

theorem forwardPass_length (ext : Ext) (c : ImuProcess) (meas : MeasureGroup) (kf : esekf) :
    0 < (forwardPass ext c meas kf).core.IMUpose.length :=
  lt_of_lt_of_le (by simp [forwardInit]) (forwardLoop_length ext _ _ _)

/-! ## Lemmas on `UndistortPcl` and the primed branch of `Process` -/

theorem UndistortPcl_spec (ext : Ext) (c : ImuProcess) (meas : MeasureGroup) (kf : esekf)
    (keep : PointType → Prop) (back : Imu) (hb : meas.imu.getLast? = some back)
    (hkeep : ∀ p, keep p → ∀ pose ∈ (forwardPass ext c meas kf).core.IMUpose,
      p.curvature / 1000 ≤ pose.offset_time) :
    ∃ pts, CloudRel keep (ext.sort meas.lidar) pts ∧
      UndistortPcl ext c meas kf =
        some ⟨{ (forwardPass ext c meas kf).core with
                last_imu_ := back, last_lidar_end_time_ := meas.lidar_end_time },
          ext.predict (forwardPass ext c meas kf).kf
            (finalDt meas.lidar_end_time back.stamp)
            (forwardPass ext c meas kf).core.Q (forwardPass ext c meas kf).inp,
          pts,
          (forwardPass ext c meas kf).calls ++
            [⟨finalDt meas.lidar_end_time back.stamp, (forwardPass ext c meas kf).core.Q,
              (forwardPass ext c meas kf).inp⟩]⟩ := by
  have hend : ((c.last_imu_ :: meas.imu).getLast (List.cons_ne_nil _ _)) = back := by
    have := List.getLast?_eq_getLast (c.last_imu_ :: meas.imu) (List.cons_ne_nil _ _)
    rw [List.getLast?_cons, hb] at this
    simpa using this.symm
  unfold UndistortPcl
  simp only [hb, hend]
  by_cases hp : ext.sort meas.lidar = []
  · exact ⟨[], by rw [hp]; exact CloudRel_refl keep [], by simp only [hp, if_true]⟩
  · have hlen : 0 < (ext.sort meas.lidar).length := List.length_pos.mpr hp
    obtain ⟨pts, h1, h2⟩ := poseLoop_spec ext
      (ext.predict (forwardPass ext c meas kf).kf (finalDt meas.lidar_end_time back.stamp)
        (forwardPass ext c meas kf).core.Q (forwardPass ext c meas kf).inp).x
      (forwardPass ext c meas kf).core.IMUpose keep hkeep
      ((forwardPass ext c meas kf).core.IMUpose.length - 1) ((ext.sort meas.lidar).length - 1)
      (ext.sort meas.lidar) (by have := forwardPass_length ext c meas kf; omega) (by omega)
    exact ⟨pts, h2, by simp only [hp, if_false, h1]⟩

theorem Process_primed_eq (ext : Ext) (c : ImuProcess) (meas : MeasureGroup) (kf : esekf)
    (pcl : PointCloudXYZI) (hne : meas.imu ≠ []) (hp : c.imu_need_init_ = false) :
    Process ext c meas kf pcl = UndistortPcl ext c meas kf := by
  simp [Process, hne, hp]

theorem ne_nil_of_getLast_some {α : Type} {l : List α} {b : α} (h : l.getLast? = some b) :
    l ≠ [] := by
  intro hl
  rw [hl] at h
  exact absurd h (by simp)

theorem finalDt_of_lt {e t : ℚ} (h : e < t) : finalDt e t = t - e := by
  unfold finalDt
  rw [if_neg (not_lt.mpr (le_of_lt h))]
  ring

theorem Process_empty_imu_step (ext : Ext) (c : ImuProcess) (meas : MeasureGroup)
    (kf : esekf) (pcl : PointCloudXYZI) (h : meas.imu = []) :
    Process ext c meas kf pcl = some ⟨c, kf, pcl, []⟩ := by
  unfold Process
  rw [if_pos h]

theorem CloudRel_map_eq {keep : PointType → Prop} {a b : List PointType}
    (h : CloudRel keep a b) :
    b.map PointType.curvature = a.map PointType.curvature ∧
    b.map PointType.intensity = a.map PointType.intensity := by
  constructor <;>
  · apply List.ext_getElem?
    intro n
    rw [List.getElem?_map, List.getElem?_map]
    cases ha : a[n]? with
    | none =>
      have : b[n]? = none := by
        rw [List.getElem?_eq_none_iff] at ha ⊢
        rw [h.1]; exact ha
      rw [this]
    | some p =>
      obtain ⟨q, hq, r1, r2, -⟩ := h.2 n p ha
      rw [hq]
      simp [r1, r2]

theorem forwardStep_stale (ext : Ext) (beg : ℚ) (head tail : Imu) (s : Fwd)
    (h : tail.stamp < s.core.last_lidar_end_time_) : forwardStep ext beg head tail s = s := by
  unfold forwardStep
  rw [if_pos h]

theorem forwardStep_last_imu (ext : Ext) (beg : ℚ) (head tail v : Imu) (s : Fwd) :
    forwardStep ext beg head tail { s with core := { s.core with last_imu_ := v } } =
      { forwardStep ext beg head tail s with
        core := { (forwardStep ext beg head tail s).core with last_imu_ := v } } := by
  unfold forwardStep
  by_cases h : tail.stamp < s.core.last_lidar_end_time_
  · simp only [h, if_true]
  · simp only [h, if_false]

theorem forwardLoop_last_imu (ext : Ext) (beg : ℚ) (v : Imu) :
    ∀ (l : List Imu) (s : Fwd),
      forwardLoop ext beg l { s with core := { s.core with last_imu_ := v } } =
        { forwardLoop ext beg l s with
          core := { (forwardLoop ext beg l s).core with last_imu_ := v } } := by
  intro l
  induction l with
  | nil => intro s; rfl
  | cons head l ih =>
    intro s
    cases l with
    | nil => rfl
    | cons tail rest =>
      unfold forwardLoop
      rw [forwardStep_last_imu, ih]

theorem forwardStep_head_congr (ext : Ext) (beg : ℚ) (h1 h2 tail : Imu) (s : Fwd)
    (hw : h1.angular_velocity = h2.angular_velocity)
    (ha : h1.linear_acceleration = h2.linear_acceleration)
    (ht1 : h1.stamp ≤ s.core.last_lidar_end_time_)
    (ht2 : h2.stamp < s.core.last_lidar_end_time_) :
    forwardStep ext beg h1 tail s = forwardStep ext beg h2 tail s := by
  have hdt : (if h1.stamp < s.core.last_lidar_end_time_
      then tail.stamp - s.core.last_lidar_end_time_ else tail.stamp - h1.stamp) =
      tail.stamp - s.core.last_lidar_end_time_ := by
    split
    · rfl
    · rw [le_antisymm ht1 (not_lt.mp ‹_›)]
  unfold forwardStep
  simp only [hw, ha, hdt, ht2, if_true]

theorem forwardPass_stale (ext : Ext) (c : ImuProcess) (kf : esekf) (beg e : ℚ)
    (lidar : PointCloudXYZI) (s1 s2 : Imu) (rest : List Imu)
    (h1 : s1.stamp < c.last_lidar_end_time_) (h2 : s2.stamp < c.last_lidar_end_time_) :
    forwardPass ext { c with last_imu_ := s2 } ⟨beg, e, lidar, rest⟩ kf =
      { forwardPass ext c ⟨beg, e, lidar, s1 :: s2 :: rest⟩ kf with
        core := { (forwardPass ext c ⟨beg, e, lidar, s1 :: s2 :: rest⟩ kf).core with
          last_imu_ := s2 } } := by
  have e1 : forwardPass ext c ⟨beg, e, lidar, s1 :: s2 :: rest⟩ kf =
      forwardLoop ext beg (s2 :: rest) (forwardInit ext c kf) := by
    unfold forwardPass
    simp only []
    rw [forwardLoop, forwardStep_stale ext beg _ _ _ (by simpa [forwardInit] using h1),
      forwardLoop, forwardStep_stale ext beg _ _ _ (by simpa [forwardInit] using h2)]
  rw [e1, ← forwardLoop_last_imu]
  rfl

theorem getLast_cons_of_getLast_some {α : Type} (a : α) {l : List α} {b : α}
    (h : l.getLast? = some b) : (a :: l).getLast (List.cons_ne_nil _ _) = b := by
  have := List.getLast?_eq_getLast (a :: l) (List.cons_ne_nil _ _)
  rw [List.getLast?_cons, h] at this
  simpa using this.symm

theorem UndistortPcl_congr (ext : Ext) (c d : ImuProcess) (kf : esekf) (beg e : ℚ)
    (lidar : PointCloudXYZI) (imu1 imu2 : List Imu) (v back : Imu)
    (h1 : imu1.getLast? = some back) (h2 : imu2.getLast? = some back)
    (hF : forwardPass ext d ⟨beg, e, lidar, imu2⟩ kf =
      { forwardPass ext c ⟨beg, e, lidar, imu1⟩ kf with
        core := { (forwardPass ext c ⟨beg, e, lidar, imu1⟩ kf).core with last_imu_ := v } }) :
    UndistortPcl ext c ⟨beg, e, lidar, imu1⟩ kf = UndistortPcl ext d ⟨beg, e, lidar, imu2⟩ kf := by
  unfold UndistortPcl
  simp only [hF, h1, h2, getLast_cons_of_getLast_some c.last_imu_ h1,
    getLast_cons_of_getLast_some d.last_imu_ h2]

/-! ## Lemmas on runs of `Process` -/

theorem processAll_init (ext : Ext) (kf0 : esekf) :
    ∀ (ms : List MeasureGroup) (pre : List Imu) (c : ImuProcess) (kf : esekf)
      (pcl : PointCloudXYZI) (calls : List PredictCall),
      InitInv ext kf0 pre c kf → c.imu_need_init_ = true →
      pre.length + (allImu ms.dropLast).length < MAX_INI_COUNT →
      ∃ o, processAll ext ⟨c, kf, pcl, calls⟩ ms = some o ∧
        InitInv ext kf0 (pre ++ allImu ms) o.core o.kf ∧ SameConfig c o.core ∧
        o.pcl = pcl ∧ o.calls = calls ∧
        (o.core.imu_need_init_ = true ↔ (pre ++ allImu ms).length < MAX_INI_COUNT) := by
  intro ms
  induction ms with
  | nil =>
    intro pre c kf pcl calls hinv hinit hlen
    refine ⟨⟨c, kf, pcl, calls⟩, rfl, by simpa [allImu] using hinv, by simp [SameConfig],
      rfl, rfl, ?_⟩
    simp only [List.dropLast_nil, allImu, List.length_nil, Nat.add_zero] at hlen
    simp [allImu, hinit, hlen]
  | cons m rest ih =>
    intro pre c kf pcl calls hinv hinit hlen
    have hpre : pre.length < MAX_INI_COUNT := by omega
    obtain ⟨o1, hP, hI, hC, hpcl, hcalls, hflag⟩ :=
      Process_init_step ext kf0 pre c m kf pcl hinv hinit hpre
    cases rest with
    | nil =>
      refine ⟨{ o1 with calls := calls ++ o1.calls }, by simp [processAll, hP],
        by simpa [allImu] using hI, hC, hpcl, by simp [hcalls], ?_⟩
      simpa [allImu] using hflag
    | cons m2 rest2 =>
      have hlen2 : (pre ++ m.imu).length +
          (allImu (m2 :: rest2).dropLast).length < MAX_INI_COUNT := by
        simp only [List.dropLast_cons₂, allImu, List.length_append] at hlen ⊢
        omega
      have hinit1 : o1.core.imu_need_init_ = true := hflag.mpr (by omega)
      obtain ⟨o, h1, h2, h3, h4, h5, h6⟩ := ih (pre ++ m.imu) o1.core o1.kf o1.pcl
        (calls ++ o1.calls) hI hinit1 hlen2
      refine ⟨o, ?_, ?_, SameConfig_trans hC h3, h4.trans hpcl, by rw [h5, hcalls]; simp, ?_⟩
      · rw [processAll, hP]
        exact h1
      · rw [allImu, ← List.append_assoc]; exact h2
      · rw [allImu, ← List.append_assoc]; exact h6

theorem Process_primed_flags (ext : Ext) (c : ImuProcess) (meas : MeasureGroup) (kf : esekf)
    (pcl : PointCloudXYZI) (hp : c.imu_need_init_ = false) :
    ∃ o, Process ext c meas kf pcl = some o ∧ o.core.imu_need_init_ = false ∧
      o.core.init_iter_num = c.init_iter_num := by
  by_cases hne : meas.imu = []
  · exact ⟨⟨c, kf, pcl, []⟩, by simp [Process, hne], hp, rfl⟩
  · obtain ⟨back, hb⟩ := getLast_some_of_ne_nil meas.imu hne
    obtain ⟨pts, -, hU⟩ := UndistortPcl_spec ext c meas kf (fun _ => False) back hb
      (fun _ h => absurd h id)
    rw [← Process_primed_eq ext c meas kf pcl hne hp] at hU
    have hcore := forwardLoop_core ext meas.lidar_beg_time (c.last_imu_ :: meas.imu)
      (forwardInit ext c kf)
    refine ⟨_, hU, ?_, ?_⟩
    · show (forwardPass ext c meas kf).core.imu_need_init_ = false
      unfold forwardPass
      rw [hcore]
      exact hp
    · show (forwardPass ext c meas kf).core.init_iter_num = c.init_iter_num
      unfold forwardPass
      rw [hcore]
      rfl

theorem processAll_flag (ext : Ext) (kf0 : esekf) :
    ∀ (ms : List MeasureGroup) (pre : List Imu) (c : ImuProcess) (kf : esekf)
      (pcl : PointCloudXYZI) (calls : List PredictCall),
      ((c.imu_need_init_ = true ∧ pre.length < MAX_INI_COUNT ∧ InitInv ext kf0 pre c kf) ∨
        (c.imu_need_init_ = false ∧ MAX_INI_COUNT ≤ pre.length)) →
      ∃ o, processAll ext ⟨c, kf, pcl, calls⟩ ms = some o ∧
        (o.core.imu_need_init_ = false ↔ MAX_INI_COUNT ≤ (pre ++ allImu ms).length) := by
  intro ms
  induction ms with
  | nil =>
    intro pre c kf pcl calls h
    refine ⟨⟨c, kf, pcl, calls⟩, rfl, ?_⟩
    rcases h with ⟨h1, h2, -⟩ | ⟨h1, h2⟩
    · simp [allImu, h1, h2]
    · simp [allImu, h1, h2]
  | cons m rest ih =>
    intro pre c kf pcl calls h
    rcases h with ⟨h1, h2, h3⟩ | ⟨h1, h2⟩
    · obtain ⟨o1, hP, hI, -, -, -, hflag⟩ := Process_init_step ext kf0 pre c m kf pcl h3 h1 h2
      obtain ⟨o, g1, g2⟩ := ih (pre ++ m.imu) o1.core o1.kf o1.pcl (calls ++ o1.calls) (by
        by_cases hl : (pre ++ m.imu).length < MAX_INI_COUNT
        · exact Or.inl ⟨hflag.mpr hl, hl, hI⟩
        · refine Or.inr ⟨?_, Nat.le_of_not_lt hl⟩
          cases hn : o1.core.imu_need_init_ with
          | false => rfl
          | true => exact absurd (hflag.mp hn) hl)
      refine ⟨o, by rw [processAll, hP]; exact g1, ?_⟩
      rw [allImu, ← List.append_assoc]; exact g2
    · obtain ⟨o1, hP, hf, -⟩ := Process_primed_flags ext c m kf pcl h1
      obtain ⟨o, g1, g2⟩ := ih (pre ++ m.imu) o1.core o1.kf o1.pcl (calls ++ o1.calls)
        (Or.inr ⟨hf, by rw [List.length_append]; omega⟩)
      refine ⟨o, by rw [processAll, hP]; exact g1, ?_⟩
      rw [allImu, ← List.append_assoc]; exact g2

theorem configure_extrinsic (cfgs : List Config) :
    ∀ c : ImuProcess,
      ((configure c cfgs).Lidar_R_wrt_IMU, (configure c cfgs).Lidar_T_wrt_IMU) =
        ((cfgs.filterMap Config.extrinsic?).getLast?).getD
          (c.Lidar_R_wrt_IMU, c.Lidar_T_wrt_IMU) := by
  induction cfgs with
  | nil => intro c; rfl
  | cons cfg rest ih =>
    intro c
    have h := ih (cfg.apply c)
    unfold configure at h ⊢
    rw [List.foldl_cons, h]
    cases cfg <;>
      simp [Config.apply, Config.extrinsic?, set_extrinsic, set_extrinsic_transl, set_gyr_cov,
        set_acc_cov, set_gyr_bias_cov, set_acc_bias_cov, List.getLast?_cons]

theorem configure_flags (cfgs : List Config) :
    ∀ c : ImuProcess, (configure c cfgs).b_first_frame_ = c.b_first_frame_ ∧
      (configure c cfgs).imu_need_init_ = c.imu_need_init_ ∧
      (configure c cfgs).init_iter_num = c.init_iter_num := by
  induction cfgs with
  | nil => intro c; exact ⟨rfl, rfl, rfl⟩
  | cons cfg rest ih =>
    intro c
    have h := ih (cfg.apply c)
    unfold configure at h ⊢
    rw [List.foldl_cons]
    cases cfg <;> exact h

theorem cold_InitInv (ext : Ext) (u : Unassigned) (cfgs : List Config) (kf : esekf) :
    InitInv ext kf [] (configure (ImuProcess.ctor ext u) cfgs) kf ∧
      (configure (ImuProcess.ctor ext u) cfgs).imu_need_init_ = true := by
  obtain ⟨-, h2, h3⟩ := configure_flags cfgs (ImuProcess.ctor ext u)
  exact ⟨⟨⟨by rw [h3]; rfl, fun h => absurd rfl h⟩, fun _ => rfl, fun h => absurd rfl h⟩,
    by rw [h2]; rfl⟩

theorem dot_self_ne_zero (m : V3) (h : m ≠ V3.zero) : m.dot m ≠ 0 := by
  intro h0
  apply h
  unfold V3.dot at h0
  have hx : m.x = 0 := by nlinarith [sq_nonneg m.x, sq_nonneg m.y, sq_nonneg m.z]
  have hy : m.y = 0 := by nlinarith [sq_nonneg m.x, sq_nonneg m.y, sq_nonneg m.z]
  have hz : m.z = 0 := by nlinarith [sq_nonneg m.x, sq_nonneg m.y, sq_nonneg m.z]
  ext <;> simp [V3.zero, hx, hy, hz]

theorem seeded_gravity_norm (m : V3) (n : ℚ) (hn : n * n = m.dot m) (hm : m ≠ V3.zero) :
    (S2 (((m.neg).divS n).mulS G_m_s2)).dot (S2 (((m.neg).divS n).mulS G_m_s2)) =
      G_m_s2 * G_m_s2 := by
  have h0 : n ≠ 0 := by
    intro h
    rw [h, zero_mul] at hn
    exact dot_self_ne_zero m hm hn.symm
  unfold V3.dot at hn
  simp only [S2, V3.dot, V3.neg, V3.divS, V3.mulS]
  field_simp
  rw [hn]
  ring

theorem initCov_eq (P : Mat 23) : initCov P = Matrix.diagonal seededDiag := by
  have h : ∀ i j : Fin 23, initCov 0 i j = Matrix.diagonal seededDiag i j := by decide!
  funext i j
  exact h i j

/-! ## Further lemmas on the forward pass -/

theorem setDiag3_QBlocks (Q : Mat 12) (g a bg ba : V3) :
    QBlocks (setDiag3 (setDiag3 (setDiag3 (setDiag3 Q 0 1 2 g) 3 4 5 a) 6 7 8 bg) 9 10 11 ba)
      g a := by
  unfold QBlocks setDiag3 setDiag
  refine ⟨?_, ?_, ?_, ?_, ?_, ?_⟩ <;> simp

theorem forwardStep_Q (ext : Ext) (beg : ℚ) (head tail : Imu) (s : Fwd) (g a : V3)
    (hg : s.core.cov_gyr = g) (ha : s.core.cov_acc = a)
    (h1 : ∀ call ∈ s.calls, QBlocks call.Q g a)
    (h2 : s.calls ≠ [] → QBlocks s.core.Q g a) :
    (forwardStep ext beg head tail s).core.cov_gyr = g ∧
    (forwardStep ext beg head tail s).core.cov_acc = a ∧
    (∀ call ∈ (forwardStep ext beg head tail s).calls, QBlocks call.Q g a) ∧
    ((forwardStep ext beg head tail s).calls ≠ [] →
      QBlocks (forwardStep ext beg head tail s).core.Q g a) := by
  subst hg
  subst ha
  unfold forwardStep
  split
  · exact ⟨rfl, rfl, h1, h2⟩
  · have hQ := setDiag3_QBlocks s.core.Q s.core.cov_gyr s.core.cov_acc s.core.cov_bias_gyr
      s.core.cov_bias_acc
    refine ⟨rfl, rfl, ?_, fun _ => hQ⟩
    intro call hc
    simp only [List.mem_append, List.mem_singleton] at hc
    rcases hc with hc | hc
    · exact h1 call hc
    · rw [hc]; exact hQ

theorem forwardLoop_Q (ext : Ext) (beg : ℚ) (g a : V3) :
    ∀ (l : List Imu) (s : Fwd), s.core.cov_gyr = g → s.core.cov_acc = a →
      (∀ call ∈ s.calls, QBlocks call.Q g a) → (s.calls ≠ [] → QBlocks s.core.Q g a) →
      (∀ call ∈ (forwardLoop ext beg l s).calls, QBlocks call.Q g a) ∧
      ((forwardLoop ext beg l s).calls ≠ [] → QBlocks (forwardLoop ext beg l s).core.Q g a) := by
  intro l
  induction l with
  | nil => intro s _ _ h1 h2; exact ⟨h1, h2⟩
  | cons head l ih =>
    intro s hg ha h1 h2
    cases l with
    | nil => exact ⟨h1, h2⟩
    | cons tail rest =>
      unfold forwardLoop
      obtain ⟨g1, g2, g3, g4⟩ := forwardStep_Q ext beg head tail s g a hg ha h1 h2
      exact ih _ g1 g2 g3 g4

theorem forwardStep_lle (ext : Ext) (beg : ℚ) (head tail : Imu) (s : Fwd) :
    (forwardStep ext beg head tail s).core.last_lidar_end_time_ =
      s.core.last_lidar_end_time_ := by
  rw [forwardStep_core]

theorem forwardLoop_offset_list (ext : Ext) (beg : ℚ) :
    ∀ (l : List Imu) (s : Fwd),
      (forwardLoop ext beg l s).core.IMUpose.map Pose6D.offset_time =
        s.core.IMUpose.map Pose6D.offset_time ++
          (l.tail.filter (fun t => decide (¬ t.stamp < s.core.last_lidar_end_time_))).map
            (fun t => t.stamp - beg) := by
  intro l
  induction l with
  | nil => intro s; simp [forwardLoop]
  | cons head l ih =>
    intro s
    cases l with
    | nil => simp [forwardLoop]
    | cons tail rest =>
      unfold forwardLoop
      rw [ih, forwardStep_lle]
      simp only [List.tail_cons]
      by_cases hst : tail.stamp < s.core.last_lidar_end_time_
      · rw [forwardStep_stale ext beg head tail s hst]
        simp [List.filter_cons, hst]
      · have hstep : (forwardStep ext beg head tail s).core.IMUpose.map Pose6D.offset_time =
            s.core.IMUpose.map Pose6D.offset_time ++ [tail.stamp - beg] := by
          unfold forwardStep
          simp [hst, set_pose6d]
        rw [hstep]
        simp [List.filter_cons, not_lt.mp hst]

theorem forwardStep_dt (ext : Ext) (beg : ℚ) (head tail : Imu) (s : Fwd)
    (hC : head.stamp ≤ s.core.last_lidar_end_time_ ∨ head.stamp ≤ tail.stamp) :
    ((forwardStep ext beg head tail s).calls.map PredictCall.dt).sum =
      (s.calls.map PredictCall.dt).sum +
        (max tail.stamp s.core.last_lidar_end_time_ - max head.stamp s.core.last_lidar_end_time_) ∧
    (∀ call ∈ (forwardStep ext beg head tail s).calls, call ∈ s.calls ∨ 0 ≤ call.dt) ∧
    (forwardStep ext beg head tail s).calls.length =
      s.calls.length + (if tail.stamp < s.core.last_lidar_end_time_ then 0 else 1) := by
  by_cases hst : tail.stamp < s.core.last_lidar_end_time_
  · rw [forwardStep_stale ext beg head tail s hst]
    refine ⟨?_, fun call h => Or.inl h, by simp [hst]⟩
    have h1 : max tail.stamp s.core.last_lidar_end_time_ = s.core.last_lidar_end_time_ :=
      max_eq_right (le_of_lt hst)
    have h2 : max head.stamp s.core.last_lidar_end_time_ = s.core.last_lidar_end_time_ := by
      rcases hC with h | h
      · exact max_eq_right h
      · exact max_eq_right (le_trans h (le_of_lt hst))
    rw [h1, h2]; ring
  · have hge : s.core.last_lidar_end_time_ ≤ tail.stamp := not_lt.mp hst
    have h1 : max tail.stamp s.core.last_lidar_end_time_ = tail.stamp := max_eq_left hge
    have hdt : (if head.stamp < s.core.last_lidar_end_time_
        then tail.stamp - s.core.last_lidar_end_time_ else tail.stamp - head.stamp) =
        tail.stamp - max head.stamp s.core.last_lidar_end_time_ := by
      split
      · rw [max_eq_right (le_of_lt ‹_›)]
      · rw [max_eq_left (not_lt.mp ‹_›)]
    have hnn : 0 ≤ tail.stamp - max head.stamp s.core.last_lidar_end_time_ := by
      rcases hC with h | h
      · rw [max_eq_right h]; linarith
      · have := max_le h hge
        linarith
    unfold forwardStep
    simp only [hst, if_false, hdt, h1, List.map_append, List.sum_append, List.map_cons,
      List.map_nil, List.sum_cons, List.sum_nil, add_zero, List.length_append,
      List.length_singleton]
    refine ⟨trivial, ?_, trivial⟩
    intro call hc
    simp only [List.mem_append, List.mem_singleton] at hc
    rcases hc with hc | hc
    · exact Or.inl hc
    · right; rw [hc]; exact hnn

theorem forwardLoop_dt (ext : Ext) (beg : ℚ) :
    ∀ (rest : List Imu) (h : Imu) (s : Fwd),
      (h :: rest).Chain' (fun a b => a.stamp ≤ s.core.last_lidar_end_time_ ∨ a.stamp ≤ b.stamp) →
      ((forwardLoop ext beg (h :: rest) s).calls.map PredictCall.dt).sum =
        (s.calls.map PredictCall.dt).sum +
          (max (rest.getLastD h).stamp s.core.last_lidar_end_time_ -
            max h.stamp s.core.last_lidar_end_time_) ∧
      (∀ call ∈ (forwardLoop ext beg (h :: rest) s).calls, call ∈ s.calls ∨ 0 ≤ call.dt) ∧
      (forwardLoop ext beg (h :: rest) s).calls.length =
        s.calls.length +
          (rest.filter (fun t => decide (¬ t.stamp < s.core.last_lidar_end_time_))).length := by
  intro rest
  induction rest with
  | nil =>
    intro h s _
    exact ⟨by simp [forwardLoop], fun call hc => Or.inl (by simpa [forwardLoop] using hc),
      by simp [forwardLoop]⟩
  | cons t rest ih =>
    intro h s hch
    obtain ⟨hC, hch2⟩ := List.chain'_cons.mp hch
    obtain ⟨d1, d2, d3⟩ := forwardStep_dt ext beg h t s hC
    have hl := forwardStep_lle ext beg h t s
    obtain ⟨e1, e2, e3⟩ := ih t (forwardStep ext beg h t s) (by rw [hl]; exact hch2)
    unfold forwardLoop
    rw [hl] at e1 e3
    refine ⟨?_, ?_, ?_⟩
    · rw [e1, d1, List.getLastD_cons]; ring
    · intro call hc
      rcases e2 call hc with h1 | h1
      · exact d2 call h1
      · exact Or.inr h1
    · rw [e3, d3, List.filter_cons]
      by_cases hst : t.stamp < s.core.last_lidar_end_time_
      · simp [hst]
      · simp [hst]; omega

theorem finalDt_of_le {e t : ℚ} (h : t ≤ e) : finalDt e t = e - t := by
  unfold finalDt
  rcases lt_or_eq_of_le h with h1 | h1
  · rw [if_pos h1]; ring
  · rw [h1, if_neg (lt_irrefl e)]; ring

/-! ## Further lemmas on the backward pass -/

theorem pointLoop_detail (ext : Ext) (x : state_ikfom) (head tail : Pose6D) :
    ∀ (i : Nat) (pts : List PointType), i < pts.length →
      ∃ i1 pts1, pointLoop ext x head tail i pts = some (i1, pts1) ∧ i1 ≤ i ∧
        pts1.length = pts.length ∧
        (∀ k, i < k → pts1[k]? = pts[k]?) ∧
        (∀ k, k < i1 → pts1[k]? = pts[k]?) ∧
        (∀ k p, i1 < k → k ≤ i → pts[k]? = some p →
          p.curvature / 1000 > head.offset_time ∧
            pts1[k]? = some (compensate ext x head tail p)) ∧
        (∀ p, pts[i1]? = some p →
          (¬ p.curvature / 1000 > head.offset_time ∧ pts1[i1]? = some p) ∨
          (i1 = 0 ∧ p.curvature / 1000 > head.offset_time ∧
            pts1[0]? = some (compensate ext x head tail p))) := by
  intro i
  induction i with
  | zero =>
    intro pts hlt
    obtain ⟨p, hp⟩ : ∃ p, pts[0]? = some p := ⟨pts[0], List.getElem?_eq_getElem hlt⟩
    unfold pointLoop
    rw [hp]
    by_cases hc : p.curvature / 1000 > head.offset_time
    · refine ⟨0, pts.set 0 (compensate ext x head tail p), by simp only [hc, if_true],
        le_refl _, List.length_set _ _ _, ?_, ?_, ?_, ?_⟩
      · intro k hk
        exact List.getElem?_set_ne (by omega)
      · intro k hk; omega
      · intro k q h1 h2; omega
      · intro q hq
        rw [hp] at hq
        cases hq
        exact Or.inr ⟨rfl, hc, List.getElem?_set_self hlt⟩
    · refine ⟨0, pts, by simp only [hc, if_false], le_refl _, rfl, fun _ _ => rfl,
        fun _ _ => rfl, ?_, ?_⟩
      · intro k q h1 h2; omega
      · intro q hq
        rw [hp] at hq
        cases hq
        exact Or.inl ⟨hc, hp⟩
  | succ j ih =>
    intro pts hlt
    obtain ⟨p, hp⟩ : ∃ p, pts[j + 1]? = some p := ⟨pts[j + 1], List.getElem?_eq_getElem hlt⟩
    unfold pointLoop
    rw [hp]
    by_cases hc : p.curvature / 1000 > head.offset_time
    · obtain ⟨i1, pts1, h1, h2, h3, h4, h5, h6, h7⟩ :=
        ih (pts.set (j + 1) (compensate ext x head tail p)) (by rw [List.length_set]; omega)
      have hset : ∀ k, k ≠ j + 1 →
          (pts.set (j + 1) (compensate ext x head tail p))[k]? = pts[k]? :=
        fun k hk => List.getElem?_set_ne (fun h => hk h.symm)
      refine ⟨i1, pts1, by simp only [hc, if_true]; exact h1, by omega,
        by rw [h3, List.length_set], ?_, ?_, ?_, ?_⟩
      · intro k hk
        rw [h4 k (by omega), hset k (by omega)]
      · intro k hk
        rw [h5 k hk, hset k (by omega)]
      · intro k q hk1 hk2 hq
        by_cases hkj : k = j + 1
        · subst hkj
          rw [hp] at hq
          cases hq
          refine ⟨hc, ?_⟩
          rw [h4 (j + 1) (by omega)]
          exact List.getElem?_set_self hlt
        · exact h6 k q hk1 (by omega) (by rw [hset k hkj]; exact hq)
      · intro q hq
        exact h7 q (by rw [hset i1 (by omega)]; exact hq)
    · refine ⟨j + 1, pts, by simp only [hc, if_false], le_refl _, rfl, fun _ _ => rfl,
        fun _ _ => rfl, ?_, ?_⟩
      · intro k q h1 h2; omega
      · intro q hq
        rw [hp] at hq
        cases hq
        exact Or.inl ⟨hc, hp⟩

theorem poseLoop_above (ext : Ext) (x : state_ikfom) (poses : List Pose6D) :
    ∀ (k i : Nat) (pts : List PointType), k < poses.length → i < pts.length →
      ∃ pts1, poseLoop ext x poses k i pts = some pts1 ∧ pts1.length = pts.length ∧
        ∀ m, i < m → pts1[m]? = pts[m]? := by
  intro k
  induction k with
  | zero => intro i pts _ _; exact ⟨pts, rfl, rfl, fun _ _ => rfl⟩
  | succ k ih =>
    intro i pts hk hi
    have hk0 : k < poses.length := by omega
    obtain ⟨i1, pts1, h1, h2, h3, h4, -⟩ :=
      pointLoop_detail ext x poses[k] poses[k + 1] i pts hi
    obtain ⟨pts2, g1, g2, g3⟩ := ih i1 pts1 hk0 (by rw [h3]; omega)
    refine ⟨pts2, ?_, by rw [g2, h3], fun m hm => ?_⟩
    · unfold poseLoop
      rw [List.getElem?_eq_getElem hk0, List.getElem?_eq_getElem hk]
      simp only [h1, g1]
    · rw [g3 m (by omega), h4 m hm]

theorem poseLoop_last_pair (ext : Ext) (x : state_ikfom) (front : List Pose6D)
    (head tail : Pose6D) (i : Nat) (pts : List PointType) :
    poseLoop ext x (front ++ [head, tail]) (front.length + 1) i pts =
      match pointLoop ext x head tail i pts with
      | none => none
      | some (i1, pts1) => poseLoop ext x (front ++ [head, tail]) front.length i1 pts1 := by
  have e1 : (front ++ [head, tail])[front.length]? = some head := by
    rw [List.getElem?_append_right (le_refl _)]; simp
  have e2 : (front ++ [head, tail])[front.length + 1]? = some tail := by
    rw [List.getElem?_append_right (by omega)]; simp
  rw [poseLoop, e1, e2]

theorem UndistortPcl_unfold (ext : Ext) (c : ImuProcess) (meas : MeasureGroup) (kf : esekf)
    (back : Imu) (hb : meas.imu.getLast? = some back) :
    ∃ pts, UndistortPcl ext c meas kf =
        some ⟨{ (forwardPass ext c meas kf).core with
                last_imu_ := back, last_lidar_end_time_ := meas.lidar_end_time },
          ext.predict (forwardPass ext c meas kf).kf
            (finalDt meas.lidar_end_time back.stamp)
            (forwardPass ext c meas kf).core.Q (forwardPass ext c meas kf).inp,
          pts,
          (forwardPass ext c meas kf).calls ++
            [⟨finalDt meas.lidar_end_time back.stamp, (forwardPass ext c meas kf).core.Q,
              (forwardPass ext c meas kf).inp⟩]⟩ ∧
      ((ext.sort meas.lidar = [] ∧ pts = []) ∨
        (ext.sort meas.lidar ≠ [] ∧
          poseLoop ext
            (ext.predict (forwardPass ext c meas kf).kf
              (finalDt meas.lidar_end_time back.stamp)
              (forwardPass ext c meas kf).core.Q (forwardPass ext c meas kf).inp).x
            (forwardPass ext c meas kf).core.IMUpose
            ((forwardPass ext c meas kf).core.IMUpose.length - 1)
            ((ext.sort meas.lidar).length - 1) (ext.sort meas.lidar) = some pts)) := by
  have hend := getLast_cons_of_getLast_some c.last_imu_ hb
  unfold UndistortPcl
  simp only [hb, hend]
  by_cases hp : ext.sort meas.lidar = []
  · exact ⟨[], by simp only [hp, if_true], Or.inl ⟨hp, rfl⟩⟩
  · have hlen : 0 < (ext.sort meas.lidar).length := List.length_pos.mpr hp
    obtain ⟨pts, h1, -⟩ := poseLoop_spec ext
      (ext.predict (forwardPass ext c meas kf).kf (finalDt meas.lidar_end_time back.stamp)
        (forwardPass ext c meas kf).core.Q (forwardPass ext c meas kf).inp).x
      (forwardPass ext c meas kf).core.IMUpose (fun _ => False) (fun _ h => absurd h id)
      ((forwardPass ext c meas kf).core.IMUpose.length - 1) ((ext.sort meas.lidar).length - 1)
      (ext.sort meas.lidar) (by have := forwardPass_length ext c meas kf; omega) (by omega)
    exact ⟨pts, by simp only [hp, if_false, h1], Or.inr ⟨hp, h1⟩⟩

/-! ## Lemmas on two initialising runs fed the same samples -/

theorem foldl_initStep_iter (l : List Imu) :
    ∀ c : ImuProcess, (l.foldl initStep c).init_iter_num = c.init_iter_num + l.length := by
  induction l with
  | nil => intro c; rfl
  | cons s l ih =>
    intro c
    rw [List.foldl_cons, ih, List.length_cons]
    simp only [initStep]
    omega

theorem initStep_agree (c d : ImuProcess) (s : Imu) (h : InitAgree c d) :
    InitAgree (initStep c s) (initStep d s) := by
  obtain ⟨h1, h2, h3, h4, h5, h6, h7, h8⟩ := h
  unfold InitAgree SameConfig at *
  simp only [initStep, h1, h2, h3, h4, h5, h6, h7]
  exact ⟨trivial, trivial, trivial, trivial, trivial, trivial, trivial, h8⟩

theorem initStep_first_agree (c d : ImuProcess) (s : Imu)
    (hc : c.init_iter_num = 1) (hd : d.init_iter_num = 1)
    (hn : d.imu_need_init_ = c.imu_need_init_) (hf : d.b_first_frame_ = c.b_first_frame_)
    (hS : SameConfig c d) :
    InitAgree (initStep c s) (initStep d s) := by
  unfold InitAgree SameConfig at *
  simp only [initStep, hc, hd, hn, hf]
  refine ⟨?_, ?_, ?_, ?_, trivial, trivial, trivial, hS⟩ <;>
    (ext <;> simp [V3.add, V3.sub, V3.divS, V3.mulS, V3.cwiseProduct])

theorem foldl_initStep_agree (l : List Imu) :
    ∀ c d : ImuProcess, InitAgree c d → InitAgree (l.foldl initStep c) (l.foldl initStep d) := by
  induction l with
  | nil => intro c d h; exact h
  | cons s l ih =>
    intro c d h
    exact ih _ _ (initStep_agree c d s h)

theorem initFinish_agree (ext : Ext) (c d : ImuProcess) (b1 b2 : Imu) (h : InitAgree c d) :
    InitAgree (initFinish ext c b1) (initFinish ext d b2) := by
  obtain ⟨h1, h2, h3, h4, h5, h6, h7, s1, s2, s3, s4, s5, s6⟩ := h
  unfold initFinish
  simp only [h5]
  by_cases hi : MAX_INI_COUNT < c.init_iter_num
  · simp only [hi, if_true]
    exact ⟨h1, h2, s3, s4, rfl, rfl, h7, s1, s2, s3, s4, s5, s6⟩
  · simp only [hi, if_false]
    exact ⟨h1, h2, h3, h4, rfl, rfl, h7, s1, s2, s3, s4, s5, s6⟩

theorem initState_agree (ext : Ext) (c d : ImuProcess) (x : state_ikfom) (h : InitAgree c d) :
    initState ext d x = initState ext c x := by
  obtain ⟨h1, h2, -, -, -, -, -, s1, s2, -⟩ := h
  simp only [initState, h1, h2, s1, s2]

theorem with_last_imu_agree (c d : ImuProcess) (b1 b2 : Imu) (h : InitAgree c d) :
    InitAgree { c with last_imu_ := b1 } { d with last_imu_ := b2 } := h

theorem SameConfig_symm {a b : ImuProcess} (h : SameConfig a b) : SameConfig b a := by
  unfold SameConfig at h ⊢
  exact ⟨h.1.symm, h.2.1.symm, h.2.2.1.symm, h.2.2.2.1.symm, h.2.2.2.2.1.symm,
    h.2.2.2.2.2.symm⟩

theorem initFirstFrame_need_init (c c1 : ImuProcess) (meas : MeasureGroup)
    (h : initFirstFrame c meas = some c1) (hc : c.imu_need_init_ = true) :
    c1.imu_need_init_ = true := by
  unfold initFirstFrame at h
  cases hb : c.b_first_frame_ with
  | false =>
    simp only [hb] at h
    cases h
    exact hc
  | true =>
    simp only [hb, if_true] at h
    cases hi : meas.imu.head? with
    | none => rw [hi] at h; exact absurd h (by simp)
    | some front =>
      rw [hi] at h
      cases h
      rfl

theorem Process_init_core (ext : Ext) (pre : List Imu) (c : ImuProcess)
    (meas : MeasureGroup) (kf : esekf) (pcl : PointCloudXYZI)
    (hne : meas.imu ≠ []) (hc : c.imu_need_init_ = true)
    (ic : c.init_iter_num = pre.length + 1) (hb : pre ≠ [] → c.b_first_frame_ = false) :
    ∃ c1 back, Process ext c meas kf pcl =
        some ⟨initFinish ext { meas.imu.foldl initStep c1 with last_imu_ := back } back,
          ⟨initState ext (meas.imu.foldl initStep c1) kf.x, initCov kf.P⟩, pcl, []⟩ ∧
      SameConfig c c1 ∧ c1.b_first_frame_ = false ∧ c1.imu_need_init_ = true ∧
      c1.init_iter_num = pre.length + 1 ∧ (pre ≠ [] → c1 = c) := by
  obtain ⟨c1, back, h1, -, hP⟩ := Process_init_eq ext c meas kf pcl hne hc
  obtain ⟨c1', h1', hcfg, hff, hiter, hsame⟩ := initFirstFrame_spec c meas hne
  rw [h1] at h1'
  cases h1'
  refine ⟨c1, back, hP, hcfg, hff, initFirstFrame_need_init c c1 meas h1 hc, ?_, ?_⟩
  · cases hbf : c.b_first_frame_ with
    | false => rw [hsame hbf]; exact ic
    | true =>
      have hp : pre = [] := by
        by_contra hp
        rw [hb hp] at hbf
        exact absurd hbf (by simp)
      rw [hiter hbf, hp]; rfl
  · intro hp
    exact hsame (hb hp)

theorem Process_agree_step (ext : Ext) (pre : List Imu) (c d : ImuProcess)
    (meas : MeasureGroup) (kf : esekf) (pcl1 pcl2 : PointCloudXYZI)
    (hc : c.imu_need_init_ = true) (hd : d.imu_need_init_ = true)
    (ic : c.init_iter_num = pre.length + 1) (id : d.init_iter_num = pre.length + 1)
    (hS : SameConfig c d) (hpre : pre.length < MAX_INI_COUNT)
    (hA : pre ≠ [] → InitAgree c d ∧ c.b_first_frame_ = false ∧ d.b_first_frame_ = false) :
    ∃ o1 o2, Process ext c meas kf pcl1 = some o1 ∧ Process ext d meas kf pcl2 = some o2 ∧
      o1.kf = o2.kf ∧ SameConfig o1.core o2.core ∧
      o1.core.init_iter_num = (pre ++ meas.imu).length + 1 ∧
      o2.core.init_iter_num = (pre ++ meas.imu).length + 1 ∧
      (o1.core.imu_need_init_ = true ↔ (pre ++ meas.imu).length < MAX_INI_COUNT) ∧
      (o2.core.imu_need_init_ = true ↔ (pre ++ meas.imu).length < MAX_INI_COUNT) ∧
      (pre ++ meas.imu ≠ [] →
        InitAgree o1.core o2.core ∧ o1.core.b_first_frame_ = false ∧
          o2.core.b_first_frame_ = false) := by
  by_cases hne : meas.imu = []
  · exact ⟨⟨c, kf, pcl1, []⟩, ⟨d, kf, pcl2, []⟩, by simp [Process, hne], by simp [Process, hne],
      rfl, hS, by simpa [hne] using ic, by simpa [hne] using id,
      by simp [hne, hc, hpre], by simp [hne, hd, hpre], by simpa [hne] using hA⟩
  · obtain ⟨c1, bc, hPc, sc, fc, nc, jc, ec⟩ :=
      Process_init_core ext pre c meas kf pcl1 hne hc ic (fun h => (hA h).2.1)
    obtain ⟨d1, bd, hPd, sd, fd, nd, jd, ed⟩ :=
      Process_init_core ext pre d meas kf pcl2 hne hd id (fun h => (hA h).2.2)
    have hS1 : SameConfig c1 d1 := SameConfig_trans (SameConfig_trans (SameConfig_symm sc) hS) sd
    have hfold : InitAgree (meas.imu.foldl initStep c1) (meas.imu.foldl initStep d1) := by
      by_cases hp : pre = []
      · cases hm : meas.imu with
        | nil => exact absurd hm hne
        | cons s l =>
          rw [List.foldl_cons, List.foldl_cons]
          refine foldl_initStep_agree l _ _ (initStep_first_agree c1 d1 s ?_ ?_ ?_ ?_ hS1)
          · rw [jc, hp]; rfl
          · rw [jd, hp]; rfl
          · rw [nc, nd]
          · rw [fc, fd]
      · rw [ec hp, ed hp]
        exact foldl_initStep_agree _ _ _ (hA hp).1
    have hfin := initFinish_agree ext _ _ bc bd
      (with_last_imu_agree (meas.imu.foldl initStep c1) (meas.imu.foldl initStep d1) bc bd hfold)
    obtain ⟨a1, -, -, a4, -, a6⟩ :=
      initFinish_fields ext { meas.imu.foldl initStep c1 with last_imu_ := bc } bc
    obtain ⟨b1, -, -, b4, -, b6⟩ :=
      initFinish_fields ext { meas.imu.foldl initStep d1 with last_imu_ := bd } bd
    have kc := foldl_initStep_iter meas.imu c1
    have kd := foldl_initStep_iter meas.imu d1
    obtain ⟨-, gc, -⟩ := foldl_initStep_frame meas.imu c1
    obtain ⟨-, gd, -⟩ := foldl_initStep_frame meas.imu d1
    refine ⟨_, _, hPc, hPd, ?_, hfin.2.2.2.2.2.2.2, ?_, ?_, ?_, ?_, fun _ => ⟨hfin, ?_, ?_⟩⟩
    · rw [initState_agree ext _ _ kf.x hfold]
    · rw [a1]; simp only []; rw [kc, jc, List.length_append]; omega
    · rw [b1]; simp only []; rw [kd, jd, List.length_append]; omega
    · rw [a6]; simp only []; rw [kc, jc, List.length_append]; omega
    · rw [b6]; simp only []; rw [kd, jd, List.length_append]; omega
    · rw [a4]; simp only []; rw [gc, fc]
    · rw [b4]; simp only []; rw [gd, fd]

theorem processAll_agree (ext : Ext) :
    ∀ (ms : List MeasureGroup) (pre : List Imu) (c d : ImuProcess) (kf : esekf)
      (pcl1 pcl2 : PointCloudXYZI) (calls1 calls2 : List PredictCall),
      c.imu_need_init_ = true → d.imu_need_init_ = true →
      c.init_iter_num = pre.length + 1 → d.init_iter_num = pre.length + 1 →
      SameConfig c d →
      (pre ≠ [] → InitAgree c d ∧ c.b_first_frame_ = false ∧ d.b_first_frame_ = false) →
      pre.length + (allImu ms.dropLast).length < MAX_INI_COUNT →
      ∃ o1 o2, processAll ext ⟨c, kf, pcl1, calls1⟩ ms = some o1 ∧
        processAll ext ⟨d, kf, pcl2, calls2⟩ ms = some o2 ∧
        o1.kf = o2.kf ∧ SameConfig o1.core o2.core ∧
        (pre ++ allImu ms ≠ [] → InitAgree o1.core o2.core) := by
  intro ms
  induction ms with
  | nil =>
    intro pre c d kf pcl1 pcl2 calls1 calls2 hc hd ic id hS hA _
    exact ⟨_, _, rfl, rfl, rfl, hS, fun h => (hA (by simpa [allImu] using h)).1⟩
  | cons m rest ih =>
    intro pre c d kf pcl1 pcl2 calls1 calls2 hc hd ic id hS hA hlen
    have hpre : pre.length < MAX_INI_COUNT := by omega
    obtain ⟨o1, o2, hP1, hP2, hk, hS2, i1, i2, n1, n2, hA2⟩ :=
      Process_agree_step ext pre c d m kf pcl1 pcl2 hc hd ic id hS hpre hA
    cases rest with
    | nil =>
      refine ⟨{ o1 with calls := calls1 ++ o1.calls }, { o2 with calls := calls2 ++ o2.calls },
        by simp [processAll, hP1], by simp [processAll, hP2], hk, hS2, fun h => ?_⟩
      exact (hA2 (by simpa [allImu] using h)).1
    | cons m2 rest2 =>
      have hlen2 : (pre ++ m.imu).length +
          (allImu (m2 :: rest2).dropLast).length < MAX_INI_COUNT := by
        simp only [List.dropLast_cons₂, allImu, List.length_append] at hlen ⊢
        omega
      have hlt : (pre ++ m.imu).length < MAX_INI_COUNT := by omega
      have e1 : processAll ext ⟨c, kf, pcl1, calls1⟩ (m :: m2 :: rest2) =
          processAll ext ⟨o1.core, o1.kf, o1.pcl, calls1 ++ o1.calls⟩ (m2 :: rest2) := by
        rw [processAll, hP1]
      have e2 : processAll ext ⟨d, kf, pcl2, calls2⟩ (m :: m2 :: rest2) =
          processAll ext ⟨o2.core, o1.kf, o2.pcl, calls2 ++ o2.calls⟩ (m2 :: rest2) := by
        rw [processAll, hP2, hk]
      obtain ⟨r1, r2, g1, g2, g3, g4, g5⟩ := ih (pre ++ m.imu) o1.core o2.core o1.kf o1.pcl
        o2.pcl (calls1 ++ o1.calls) (calls2 ++ o2.calls) (n1.mpr hlt) (n2.mpr hlt) i1 i2 hS2
        hA2 hlen2
      refine ⟨r1, r2, by rw [e1]; exact g1, by rw [e2]; exact g2, g3, g4, fun h => ?_⟩
      exact g5 (by simpa [allImu, List.append_assoc] using h)

/-! ## The claims -/

/-- C1, as stated, fails: in the sweep `demoSweepShort` the last IMU sample is stamped 3 and
the sweep ends at 2, yet the final `predict` of `UndistortPcl` is called with `dt = 1`, which
is not negative. -/
theorem final_predict_dt_not_negative_example :
    demoPrimed.imu_need_init_ = false ∧
    demoSweepShort.imu.getLast?.map Imu.stamp = some 3 ∧
    demoSweepShort.lidar_end_time = 2 ∧
    ((Process refExt demoPrimed demoSweepShort demoKfMoving []).bind
      (fun o => o.calls.getLast?)).map (fun call => (call.dt, decide (call.dt < 0))) =
      some (1, false) := by
  decide!

/-- C1 (amended): for a primed object and a group whose last IMU sample is stamped strictly
after `lidar_end_time`, `Process` returns, and the last `predict` call it made (the sweep-end
alignment) has `dt = |lidar_end_time − t_last| = t_last − lidar_end_time`, which is strictly
positive. -/
theorem final_predict_dt_positive (ext : Ext) (c : ImuProcess) (meas : MeasureGroup)
    (kf : esekf) (pcl : PointCloudXYZI) (last : Imu)
    (hprimed : c.imu_need_init_ = false) (hlast : meas.imu.getLast? = some last)
    (hlt : meas.lidar_end_time < last.stamp) :
    ∃ o call, Process ext c meas kf pcl = some o ∧ o.calls.getLast? = some call ∧
      call.dt = |meas.lidar_end_time - last.stamp| ∧
      call.dt = last.stamp - meas.lidar_end_time ∧ 0 < call.dt := by
  obtain ⟨pts, -, hU⟩ := UndistortPcl_spec ext c meas kf (fun _ => False) last hlast
    (fun _ h => absurd h id)
  rw [← Process_primed_eq ext c meas kf pcl (ne_nil_of_getLast_some hlast) hprimed] at hU
  refine ⟨_, _, hU, List.getLast?_concat _, ?_, ?_, ?_⟩
  · simp only [finalDt_of_lt hlt]
    rw [abs_of_neg (by linarith)]
    ring
  · exact finalDt_of_lt hlt
  · simp only [finalDt_of_lt hlt]
    linarith

/-- Instance of `final_predict_dt_positive` on the sweep `demoSweepShort`. -/
theorem final_predict_dt_positive_witness :
    demoPrimed.imu_need_init_ = false ∧
    demoSweepShort.imu.getLast? = some (demoImu 3) ∧
    demoSweepShort.lidar_end_time < (demoImu 3).stamp ∧
    ∃ o call, Process refExt demoPrimed demoSweepShort demoKfMoving [] = some o ∧
      o.calls.getLast? = some call ∧
      call.dt = |demoSweepShort.lidar_end_time - (demoImu 3).stamp| ∧
      call.dt = (demoImu 3).stamp - demoSweepShort.lidar_end_time ∧ 0 < call.dt :=
  ⟨rfl, by decide!, by decide!,
    final_predict_dt_positive refExt demoPrimed demoSweepShort demoKfMoving [] (demoImu 3) rfl
      (by decide!) (by decide!)⟩

/-- C2, as stated, fails: in the sweep `demoSweep` the point `(2, 0, 0)` has time offset 0
and the first waypoint has `offset_time = 0`; the output cloud still holds `(2, 0, 0)` for
it, while the compensation from the first waypoint with `Δt = 0` would give `(1, 0, 0)`. -/
theorem offset_zero_point_not_compensated_example :
    demoPrimed.imu_need_init_ = false ∧
    demoSweep.lidar.head? = some ⟨2, 0, 0, 8, 0⟩ ∧
    (Process refExt demoPrimed demoSweep demoKfMoving []).bind
      (fun o => o.core.IMUpose.head?.bind (fun h => o.pcl.head?.map (fun q =>
        (h.offset_time, q.curvature, (⟨q.x, q.y, q.z⟩ : V3),
          compensatedAtHead o.kf.x h ⟨2, 0, 0, 8, 0⟩,
          decide ((⟨q.x, q.y, q.z⟩ : V3) = compensatedAtHead o.kf.x h ⟨2, 0, 0, 8, 0⟩))))) =
      some (0, 0, ⟨2, 0, 0⟩, ⟨1, 0, 0⟩, false) := by
  decide!

/-- C2 (amended): for a primed object and a group with at least one IMU sample, none of them
stamped before `lidar_beg_time` (so that no waypoint has a negative `offset_time`),
`Process` returns and every point with time offset 0 is left as it is: the output cloud
holds, at each position of the sorted input where the offset is 0, the point of the sorted
input unchanged. -/
theorem offset_zero_point_kept (ext : Ext) (c : ImuProcess) (meas : MeasureGroup)
    (kf : esekf) (pcl : PointCloudXYZI)
    (hprimed : c.imu_need_init_ = false) (hne : meas.imu ≠ [])
    (hbeg : ∀ s ∈ meas.imu, meas.lidar_beg_time ≤ s.stamp) :
    ∃ o, Process ext c meas kf pcl = some o ∧
      o.pcl.length = (ext.sort meas.lidar).length ∧
      ∀ (j : Nat) (p : PointType), (ext.sort meas.lidar)[j]? = some p → p.curvature = 0 →
        o.pcl[j]? = some p := by
  obtain ⟨back, hb⟩ := getLast_some_of_ne_nil meas.imu hne
  have hoff : ∀ pose ∈ (forwardPass ext c meas kf).core.IMUpose, (0 : ℚ) ≤ pose.offset_time := by
    refine forwardLoop_offsets ext meas.lidar_beg_time 0 _ _ ?_ ?_
    · intro pose hp
      simp only [forwardInit, List.mem_singleton] at hp
      rw [hp]
      exact le_refl _
    · intro tl htl
      have := hbeg tl (by simpa using htl)
      linarith
  obtain ⟨pts, hrel, hU⟩ := UndistortPcl_spec ext c meas kf (fun p => p.curvature = 0) back hb
    (fun p hp pose hpose => by rw [hp]; simpa using hoff pose hpose)
  rw [← Process_primed_eq ext c meas kf pcl hne hprimed] at hU
  refine ⟨_, hU, hrel.1, fun j p hj hp0 => ?_⟩
  obtain ⟨q, hq, -, -, hkeep⟩ := hrel.2 j p hj
  rw [← hkeep hp0]
  exact hq

/-- Instance of `offset_zero_point_kept` on the sweep `demoSweep`. -/
theorem offset_zero_point_kept_witness :
    demoPrimed.imu_need_init_ = false ∧ demoSweep.imu ≠ [] ∧
    (∀ s ∈ demoSweep.imu, demoSweep.lidar_beg_time ≤ s.stamp) ∧
    ∃ o, Process refExt demoPrimed demoSweep demoKfMoving [] = some o ∧
      o.pcl.length = (refExt.sort demoSweep.lidar).length ∧
      ∀ (j : Nat) (p : PointType), (refExt.sort demoSweep.lidar)[j]? = some p →
        p.curvature = 0 → o.pcl[j]? = some p :=
  ⟨rfl, by decide, by decide!,
    offset_zero_point_kept refExt demoPrimed demoSweep demoKfMoving [] rfl (by decide)
      (by decide!)⟩

/-- C3, as stated, fails: the object `demoPrimedStale` retains a sample that reads 1 rad/s
about x, and the previous sweep ended at time 1. On the sweep `demoSweepStale`, whose first
two samples are stamped 7/10 and 9/10, the first `predict` call has `dt = 1/2` and a zero
rate input (the mean of the second stale sample and the first valid one); with the two stale
samples removed (`demoSweepFresh`) its rate input is `(1/2, 0, 0)` (the mean of the retained
sample and the first valid one). -/
theorem stale_skip_changes_first_input_example :
    demoPrimedStale.imu_need_init_ = false ∧ demoPrimedStale.last_lidar_end_time_ = 1 ∧
    demoSweepStale.imu.map Imu.stamp = [7 / 10, 9 / 10, 3 / 2, 2] ∧
    demoSweepFresh.imu = demoSweepStale.imu.drop 2 ∧
    (Process refExt demoPrimedStale demoSweepStale demoKfMoving []).map
      (fun o => o.calls.map (fun call => (call.dt, call.u.gyro))) =
      some [(1 / 2, ⟨0, 0, 0⟩), (1 / 2, ⟨0, 0, 0⟩), (0, ⟨0, 0, 0⟩)] ∧
    (Process refExt demoPrimedStale demoSweepFresh demoKfMoving []).map
      (fun o => o.calls.map (fun call => (call.dt, call.u.gyro))) =
      some [(1 / 2, ⟨1 / 2, 0, 0⟩), (1 / 2, ⟨0, 0, 0⟩), (0, ⟨0, 0, 0⟩)] ∧
    (Process refExt demoPrimedStale demoSweepStale demoKfMoving []).map
        (fun o => o.calls.map (fun call => (call.dt, call.u))) ≠
      (Process refExt demoPrimedStale demoSweepFresh demoKfMoving []).map
        (fun o => o.calls.map (fun call => (call.dt, call.u))) := by
  decide!

/-- C3 (amended): for a primed object and a group whose IMU list starts with two samples
stamped strictly before `last_lidar_end_time_`, followed by at least one more sample, the two
stale pairs are skipped without a `predict` call or any change of state: `Process` gives the
same result (object, filter, cloud and trace of `predict` calls) as on the group without the
two stale samples when the second stale sample takes the place of the retained `last_imu_`.
It gives the same result as on the group without the two stale samples, object unchanged,
when moreover the retained sample is itself stamped at or before `last_lidar_end_time_` and
carries the same two readings as the second stale sample. -/
theorem stale_samples_skipped (ext : Ext) (c : ImuProcess) (kf : esekf) (pcl : PointCloudXYZI)
    (beg e : ℚ) (lidar : PointCloudXYZI) (s1 s2 : Imu) (rest : List Imu)
    (hprimed : c.imu_need_init_ = false)
    (h1 : s1.stamp < c.last_lidar_end_time_) (h2 : s2.stamp < c.last_lidar_end_time_)
    (hrest : rest ≠ []) :
    Process ext c ⟨beg, e, lidar, s1 :: s2 :: rest⟩ kf pcl =
      Process ext { c with last_imu_ := s2 } ⟨beg, e, lidar, rest⟩ kf pcl ∧
    (c.last_imu_.stamp ≤ c.last_lidar_end_time_ →
      c.last_imu_.angular_velocity = s2.angular_velocity →
      c.last_imu_.linear_acceleration = s2.linear_acceleration →
      Process ext c ⟨beg, e, lidar, s1 :: s2 :: rest⟩ kf pcl =
        Process ext c ⟨beg, e, lidar, rest⟩ kf pcl) := by
  obtain ⟨back, hb⟩ := getLast_some_of_ne_nil rest hrest
  have hb2 : (s1 :: s2 :: rest).getLast? = some back := by
    rw [List.getLast?_cons, List.getLast?_cons, hb]; rfl
  have hA : Process ext c ⟨beg, e, lidar, s1 :: s2 :: rest⟩ kf pcl =
      Process ext { c with last_imu_ := s2 } ⟨beg, e, lidar, rest⟩ kf pcl := by
    rw [Process_primed_eq ext c ⟨beg, e, lidar, s1 :: s2 :: rest⟩ kf pcl (by simp) hprimed,
      Process_primed_eq ext { c with last_imu_ := s2 } ⟨beg, e, lidar, rest⟩ kf pcl hrest
        hprimed]
    exact UndistortPcl_congr ext c _ kf beg e lidar _ _ s2 back hb2 hb
      (forwardPass_stale ext c kf beg e lidar s1 s2 rest h1 h2)
  refine ⟨hA, fun h0 hw ha => ?_⟩
  rw [hA, Process_primed_eq ext { c with last_imu_ := s2 } ⟨beg, e, lidar, rest⟩ kf pcl hrest
      hprimed,
    Process_primed_eq ext c ⟨beg, e, lidar, rest⟩ kf pcl hrest hprimed]
  symm
  refine UndistortPcl_congr ext c _ kf beg e lidar _ _ s2 back hb hb ?_
  cases rest with
  | nil => exact absurd rfl hrest
  | cons r rest1 =>
    have e1 : forwardPass ext c ⟨beg, e, lidar, r :: rest1⟩ kf =
        forwardLoop ext beg (s2 :: r :: rest1) (forwardInit ext c kf) := by
      unfold forwardPass
      simp only []
      rw [forwardLoop, forwardLoop,
        forwardStep_head_congr ext beg c.last_imu_ s2 r _ hw ha
          (by simpa [forwardInit] using h0) (by simpa [forwardInit] using h2)]
    rw [e1, ← forwardLoop_last_imu]
    rfl

/-- Instance of `stale_samples_skipped` on the sweep `demoSweepStale`. -/
theorem stale_samples_skipped_witness :
    demoPrimedStale.imu_need_init_ = false ∧
    (demoImu (7 / 10)).stamp < demoPrimedStale.last_lidar_end_time_ ∧
    (demoImu (9 / 10)).stamp < demoPrimedStale.last_lidar_end_time_ ∧
    [demoImu (3 / 2), demoImu 2] ≠ [] ∧
    (Process refExt demoPrimedStale
        ⟨1, 2, [], demoImu (7 / 10) :: demoImu (9 / 10) :: [demoImu (3 / 2), demoImu 2]⟩
        demoKfMoving [] =
      Process refExt { demoPrimedStale with last_imu_ := demoImu (9 / 10) }
        ⟨1, 2, [], [demoImu (3 / 2), demoImu 2]⟩ demoKfMoving [] ∧
    (demoPrimedStale.last_imu_.stamp ≤ demoPrimedStale.last_lidar_end_time_ →
      demoPrimedStale.last_imu_.angular_velocity = (demoImu (9 / 10)).angular_velocity →
      demoPrimedStale.last_imu_.linear_acceleration = (demoImu (9 / 10)).linear_acceleration →
      Process refExt demoPrimedStale
        ⟨1, 2, [], demoImu (7 / 10) :: demoImu (9 / 10) :: [demoImu (3 / 2), demoImu 2]⟩
        demoKfMoving [] =
      Process refExt demoPrimedStale ⟨1, 2, [], [demoImu (3 / 2), demoImu 2]⟩
        demoKfMoving [])) :=
  ⟨rfl, by decide!, by decide!, by decide,
    stale_samples_skipped refExt demoPrimedStale demoKfMoving [] 1 2 [] (demoImu (7 / 10))
      (demoImu (9 / 10)) [demoImu (3 / 2), demoImu 2] rfl (by decide!) (by decide!)
      (by decide)⟩

/-- C4, as stated, fails: the input cloud of `demoSweepShort` carries the time offsets
`[500, 0]` in that order; the output cloud carries `[0, 500]`, so its first point does not
carry the offset of the first input point. -/
theorem output_cloud_reordered_example :
    demoPrimed.imu_need_init_ = false ∧ demoSweepShort.imu ≠ [] ∧
    demoSweepShort.lidar.map PointType.curvature = [500, 0] ∧
    (Process refExt demoPrimed demoSweepShort demoKfMoving []).map
      (fun o => o.pcl.map PointType.curvature) = some [0, 500] ∧
    (Process refExt demoPrimed demoSweepShort demoKfMoving []).map
      (fun o => o.pcl.map PointType.curvature) ≠
      some (demoSweepShort.lidar.map PointType.curvature) := by
  decide!

/-- C4 (amended): for a primed object and a group with a non-empty IMU list, `std::sort`
returning a permutation of the input that is ordered for `time_list`, `Process` returns a
cloud with as many points as the input, in time-sorted order rather than input order: the
i-th output point carries the time offset and the intensity of the i-th point of the sorted
input (only x, y, z are rewritten). When the input is already ordered by time offset, the
i-th output point carries the time offset of the i-th input point. -/
theorem output_cloud_sorted_order (ext : Ext) (c : ImuProcess) (meas : MeasureGroup)
    (kf : esekf) (pcl : PointCloudXYZI)
    (hprimed : c.imu_need_init_ = false) (hne : meas.imu ≠ [])
    (hperm : (ext.sort meas.lidar).Perm meas.lidar)
    (hsorted : (ext.sort meas.lidar).Pairwise (fun a b => time_list b a = false)) :
    ∃ o, Process ext c meas kf pcl = some o ∧
      o.pcl.length = meas.lidar.length ∧
      o.pcl.map PointType.curvature = (ext.sort meas.lidar).map PointType.curvature ∧
      o.pcl.map PointType.intensity = (ext.sort meas.lidar).map PointType.intensity ∧
      ((meas.lidar.map PointType.curvature).Sorted (fun a b => a ≤ b) →
        o.pcl.map PointType.curvature = meas.lidar.map PointType.curvature) := by
  obtain ⟨back, hb⟩ := getLast_some_of_ne_nil meas.imu hne
  obtain ⟨pts, hrel, hU⟩ := UndistortPcl_spec ext c meas kf (fun _ => False) back hb
    (fun _ h => absurd h id)
  rw [← Process_primed_eq ext c meas kf pcl hne hprimed] at hU
  obtain ⟨m1, m2⟩ := CloudRel_map_eq hrel
  refine ⟨_, hU, by rw [hrel.1]; exact hperm.length_eq, m1, m2, fun hin => ?_⟩
  rw [m1]
  refine List.eq_of_perm_of_sorted (hperm.map _) ?_ hin
  rw [List.Sorted, List.pairwise_map]
  exact hsorted.imp (fun h => by simpa [time_list] using h)

/-- Instance of `output_cloud_sorted_order` on the sweep `demoSweepShort`. -/
theorem output_cloud_sorted_order_witness :
    demoPrimed.imu_need_init_ = false ∧ demoSweepShort.imu ≠ [] ∧
    (refExt.sort demoSweepShort.lidar).Perm demoSweepShort.lidar ∧
    (refExt.sort demoSweepShort.lidar).Pairwise (fun a b => time_list b a = false) ∧
    ∃ o, Process refExt demoPrimed demoSweepShort demoKfMoving [] = some o ∧
      o.pcl.length = demoSweepShort.lidar.length ∧
      o.pcl.map PointType.curvature =
        (refExt.sort demoSweepShort.lidar).map PointType.curvature ∧
      o.pcl.map PointType.intensity =
        (refExt.sort demoSweepShort.lidar).map PointType.intensity ∧
      ((demoSweepShort.lidar.map PointType.curvature).Sorted (fun a b => a ≤ b) →
        o.pcl.map PointType.curvature = demoSweepShort.lidar.map PointType.curvature) :=
  ⟨rfl, by decide, by decide!, by decide!,
    output_cloud_sorted_order refExt demoPrimed demoSweepShort demoKfMoving [] rfl (by decide)
      (by decide!) (by decide!)⟩

/-- C5: whatever the object state (initialising or primed), the filter and the output
cloud, `Process` on a group whose IMU list is empty returns with the object (every member),
the filter state and covariance, and the cloud all as they were, and without any `predict`
call. -/
theorem Process_empty_imu_no_mutation (ext : Ext) (c : ImuProcess) (meas : MeasureGroup)
    (kf : esekf) (pcl : PointCloudXYZI) (h : meas.imu = []) :
    Process ext c meas kf pcl = some ⟨c, kf, pcl, []⟩ := by
  unfold Process
  rw [if_pos h]

/-- Instance of `Process_empty_imu_no_mutation` on a group with a point and no IMU sample,
for a new object and for a primed one. -/
theorem Process_empty_imu_no_mutation_witness :
    demoGroupNoImu.imu = [] ∧
    Process refExt demoPrimed demoGroupNoImu demoKf [⟨9, 9, 9, 9, 9⟩] =
      some ⟨demoPrimed, demoKf, [⟨9, 9, 9, 9, 9⟩], []⟩ :=
  ⟨rfl, Process_empty_imu_no_mutation refExt demoPrimed demoGroupNoImu demoKf [⟨9, 9, 9, 9, 9⟩]
    rfl⟩

/-- C6: starting from a new object (constructed, then configured), after `Process` has been
fed groups holding `n ≥ 1` IMU samples in total, every call being entered while
initialising, the run returns and `mean_acc`, `mean_gyr` are the arithmetic means of all `n`
accelerometer and gyroscope samples; the filter state holds
`grav = −mean_acc / ‖mean_acc‖ · 9.81` (whose squared length is `9.81²` when `‖·‖` is the
Euclidean norm at `mean_acc` and `mean_acc ≠ 0`), `bg = mean_gyr`, and the extrinsic rotation
and translation last given to `set_extrinsic`. -/
theorem init_means_and_seed (ext : Ext) (u : Unassigned) (cfgs : List Config) (kf : esekf)
    (pcl : PointCloudXYZI) (ms : List MeasureGroup)
    (hn : allImu ms ≠ [])
    (hinit : (allImu ms.dropLast).length < MAX_INI_COUNT) :
    ∃ o, processAll ext ⟨configure (ImuProcess.ctor ext u) cfgs, kf, pcl, []⟩ ms = some o ∧
      o.core.mean_acc = vmean ((allImu ms).map Imu.linear_acceleration) ∧
      o.core.mean_gyr = vmean ((allImu ms).map Imu.angular_velocity) ∧
      o.kf.x.grav = ((o.core.mean_acc.neg).divS (ext.norm o.core.mean_acc)).mulS G_m_s2 ∧
      (ext.norm o.core.mean_acc * ext.norm o.core.mean_acc = o.core.mean_acc.dot o.core.mean_acc →
        o.core.mean_acc ≠ V3.zero → o.kf.x.grav.dot o.kf.x.grav = G_m_s2 * G_m_s2) ∧
      o.kf.x.bg = o.core.mean_gyr ∧
      o.kf.x.offset_R_L_I = (lastExtrinsic cfgs).1 ∧
      o.kf.x.offset_T_L_I = (lastExtrinsic cfgs).2 := by
  obtain ⟨hI0, hneed⟩ := cold_InitInv ext u cfgs kf
  obtain ⟨o, hP, hI, hC, -, -, -⟩ := processAll_init ext kf ms []
    (configure (ImuProcess.ctor ext u) cfgs) kf pcl [] hI0 hneed (by simpa using hinit)
  rw [List.nil_append] at hI
  obtain ⟨⟨-, hmean⟩, -, hseed⟩ := hI
  obtain ⟨-, hx, -⟩ := hseed hn
  obtain ⟨hma, hmg⟩ := hmean hn
  have hext := configure_extrinsic cfgs (ImuProcess.ctor ext u)
  have hR : o.core.Lidar_R_wrt_IMU = (lastExtrinsic cfgs).1 := by
    rw [hC.1]; exact congrArg Prod.fst hext
  have hT : o.core.Lidar_T_wrt_IMU = (lastExtrinsic cfgs).2 := by
    rw [hC.2.1]; exact congrArg Prod.snd hext
  refine ⟨o, hP, hma, hmg, by rw [hx]; rfl, fun h1 h2 => ?_, by rw [hx]; rfl,
    by rw [hx]; exact hR, by rw [hx]; exact hT⟩
  rw [hx]
  exact seeded_gravity_norm o.core.mean_acc (ext.norm o.core.mean_acc) h1 h2

/-- Instance of `init_means_and_seed`: a new object given the extrinsic translation
`(1, 2, 3)`, then fed one stationary sample and, in a second call, ten more. -/
theorem init_means_and_seed_witness :
    allImu [demoGroup1, demoGroup10] ≠ [] ∧
    (allImu [demoGroup1, demoGroup10].dropLast).length < MAX_INI_COUNT ∧
    ∃ o, processAll refExt
        ⟨configure (ImuProcess.ctor refExt demoUnassigned) [Config.extrinsic_transl ⟨1, 2, 3⟩],
          demoKf, [], []⟩ [demoGroup1, demoGroup10] = some o ∧
      o.core.mean_acc = vmean ((allImu [demoGroup1, demoGroup10]).map Imu.linear_acceleration) ∧
      o.core.mean_gyr = vmean ((allImu [demoGroup1, demoGroup10]).map Imu.angular_velocity) ∧
      o.kf.x.grav = ((o.core.mean_acc.neg).divS (refExt.norm o.core.mean_acc)).mulS G_m_s2 ∧
      (refExt.norm o.core.mean_acc * refExt.norm o.core.mean_acc =
          o.core.mean_acc.dot o.core.mean_acc →
        o.core.mean_acc ≠ V3.zero → o.kf.x.grav.dot o.kf.x.grav = G_m_s2 * G_m_s2) ∧
      o.kf.x.bg = o.core.mean_gyr ∧
      o.kf.x.offset_R_L_I = (lastExtrinsic [Config.extrinsic_transl ⟨1, 2, 3⟩]).1 ∧
      o.kf.x.offset_T_L_I = (lastExtrinsic [Config.extrinsic_transl ⟨1, 2, 3⟩]).2 :=
  ⟨by decide!, by decide!,
    init_means_and_seed refExt demoUnassigned [Config.extrinsic_transl ⟨1, 2, 3⟩] demoKf [] 
      [demoGroup1, demoGroup10] (by decide!) (by decide!)⟩

/-- C7: starting from a new object, after any sequence of `Process` calls the run returns
and `imu_need_init_` is false exactly when at least 10 IMU samples have been fed in total,
so INIT completes on the first call after which the cumulative count reaches 10 and on no
earlier one; as long as every call was entered while initialising the counter is
`init_iter_num = 1 + samples seen`. In every reachable state `imu_need_init_ = false`
implies `init_iter_num > 10`. -/
theorem init_completes_at_ten_samples (ext : Ext) :
    (∀ (u : Unassigned) (cfgs : List Config) (kf : esekf) (pcl : PointCloudXYZI)
        (ms : List MeasureGroup),
      ∃ o, processAll ext ⟨configure (ImuProcess.ctor ext u) cfgs, kf, pcl, []⟩ ms = some o ∧
        (o.core.imu_need_init_ = false ↔ MAX_INI_COUNT ≤ (allImu ms).length) ∧
        ((allImu ms.dropLast).length < MAX_INI_COUNT →
          o.core.init_iter_num = 1 + (allImu ms).length)) ∧
    (∀ c : ImuProcess, Reachable ext c → c.imu_need_init_ = false →
      MAX_INI_COUNT < c.init_iter_num) := by
  constructor
  · intro u cfgs kf pcl ms
    obtain ⟨hI0, hneed⟩ := cold_InitInv ext u cfgs kf
    obtain ⟨o, hP, hflag⟩ := processAll_flag ext kf ms []
      (configure (ImuProcess.ctor ext u) cfgs) kf pcl []
      (Or.inl ⟨hneed, by decide, hI0⟩)
    refine ⟨o, hP, by simpa using hflag, fun hlen => ?_⟩
    obtain ⟨o2, hP2, hI, -⟩ := processAll_init ext kf ms []
      (configure (ImuProcess.ctor ext u) cfgs) kf pcl [] hI0 hneed (by simpa using hlen)
    rw [hP] at hP2
    cases hP2
    have := hI.1.1
    simp only [List.nil_append] at this
    omega
  · intro c hc
    induction hc with
    | ctor u => intro h; exact absurd h (by simp [ImuProcess.ctor])
    | config c cfg _ ih =>
      intro h
      cases cfg <;> exact ih h
    | reset c _ _ => intro h; exact absurd h (by simp [Reset])
    | process c meas kf pcl o _ hP ih =>
      intro h
      by_cases hne : meas.imu = []
      · rw [Process_empty_imu_step ext c meas kf pcl hne] at hP
        cases hP
        exact ih h
      · cases hinit : c.imu_need_init_ with
        | false =>
          obtain ⟨o1, hP1, -, hiter⟩ := Process_primed_flags ext c meas kf pcl hinit
          rw [hP] at hP1
          cases hP1
          rw [hiter]
          exact ih hinit
        | true =>
          obtain ⟨c1, back, -, -, hPe⟩ := Process_init_eq ext c meas kf pcl hne hinit
          rw [hP] at hPe
          cases hPe
          obtain ⟨f1, -, -, -, -, f6⟩ :=
            initFinish_fields ext { meas.imu.foldl initStep c1 with last_imu_ := back } back
          rw [f1]
          by_contra hle
          have := f6.mpr (Nat.le_of_not_lt hle)
          rw [h] at this
          exact absurd this (by simp)

/-- Instance of `init_completes_at_ten_samples`: a new object fed one group of ten
samples. -/
theorem init_completes_at_ten_samples_witness :
    ∃ o, processAll refExt ⟨configure (ImuProcess.ctor refExt demoUnassigned) [], demoKf, [], []⟩
        [demoGroup10] = some o ∧
      (o.core.imu_need_init_ = false ↔ MAX_INI_COUNT ≤ (allImu [demoGroup10]).length) ∧
      ((allImu [demoGroup10].dropLast).length < MAX_INI_COUNT →
        o.core.init_iter_num = 1 + (allImu [demoGroup10]).length) :=
  (init_completes_at_ten_samples refExt).1 demoUnassigned [] demoKf [] [demoGroup10]

/-- C8, as stated, fails: after the call that completes INIT on ten stationary samples, the
covariance has 1 on the diagonal of the rotation block (indices 3 to 5) and of the velocity
block (indices 12 to 14), not 1e-5. -/
theorem seeded_covariance_rot_vel_example :
    (Process refExt demoCold demoGroup10 demoKf []).map
      (fun o => (o.core.imu_need_init_,
        [o.kf.P 3 3, o.kf.P 4 4, o.kf.P 5 5], [o.kf.P 12 12, o.kf.P 13 13, o.kf.P 14 14],
        decide (o.kf.P 3 3 = 1 / 100000), decide (o.kf.P 12 12 = 1 / 100000))) =
      some (false, [1, 1, 1], [1, 1, 1], false, false) := by
  decide!

/-- C8 (amended): with the error state laid out as pos 0-2, rot 3-5, offset_R_L_I 6-8,
offset_T_L_I 9-11, vel 12-14, bg 15-17, ba 18-20, grav 21-22, every `Process` call made
while initialising on a non-empty IMU list returns and leaves, whatever the prior
covariance, a diagonal covariance whose diagonal is 1 on the position, rotation and velocity
blocks, 1e-5 on the extrinsic rotation and extrinsic translation blocks, 1e-4 on the
gyro-bias block, 1e-3 on the accel-bias block and 1e-5 on the gravity block. -/
theorem seeded_covariance (ext : Ext) (c : ImuProcess) (meas : MeasureGroup) (kf : esekf)
    (pcl : PointCloudXYZI) (hinit : c.imu_need_init_ = true) (hne : meas.imu ≠ []) :
    ∃ o, Process ext c meas kf pcl = some o ∧ o.kf.P = Matrix.diagonal seededDiag := by
  obtain ⟨c1, back, -, -, hP⟩ := Process_init_eq ext c meas kf pcl hne hinit
  exact ⟨_, hP, initCov_eq kf.P⟩

/-- Instance of `seeded_covariance` on a new object and a group of ten samples. -/
theorem seeded_covariance_witness :
    demoCold.imu_need_init_ = true ∧ demoGroup10.imu ≠ [] ∧
    ∃ o, Process refExt demoCold demoGroup10 demoKf [] = some o ∧
      o.kf.P = Matrix.diagonal seededDiag :=
  ⟨rfl, by decide!, seeded_covariance refExt demoCold demoGroup10 demoKf [] rfl (by decide!)⟩

/-- C9, as stated, fails: the filter `demoKf` enters INIT with `ba = (1, 0, 0)`; after the
call that completes INIT (`imu_need_init_` false) its state still has `ba = (1, 0, 0)`. -/
theorem accel_bias_not_zeroed_example :
    demoKf.x.ba = ⟨1, 0, 0⟩ ∧
    (Process refExt demoCold demoGroup10 demoKf []).map
      (fun o => (o.core.imu_need_init_, o.kf.x.ba, decide (o.kf.x.ba = V3.zero))) =
      some (false, ⟨1, 0, 0⟩, false) := by
  decide!

/-- C9 (amended): INIT never assigns `x.ba`. Starting from a new object, after any sequence
of `Process` calls each entered while initialising (the call that completes INIT included),
the run returns and the filter state has `x.ba` equal to its value at entry. -/
theorem accel_bias_kept (ext : Ext) (u : Unassigned) (cfgs : List Config) (kf : esekf)
    (pcl : PointCloudXYZI) (ms : List MeasureGroup)
    (hinit : (allImu ms.dropLast).length < MAX_INI_COUNT) :
    ∃ o, processAll ext ⟨configure (ImuProcess.ctor ext u) cfgs, kf, pcl, []⟩ ms = some o ∧
      o.kf.x.ba = kf.x.ba := by
  obtain ⟨hI0, hneed⟩ := cold_InitInv ext u cfgs kf
  obtain ⟨o, hP, hI, -⟩ := processAll_init ext kf ms []
    (configure (ImuProcess.ctor ext u) cfgs) kf pcl [] hI0 hneed (by simpa using hinit)
  refine ⟨o, hP, ?_⟩
  obtain ⟨-, h0, hseed⟩ := hI
  by_cases hn : [] ++ allImu ms = []
  · rw [h0 hn]
  · rw [(hseed hn).2.1]; rfl

/-- Instance of `accel_bias_kept`: a new object fed one group of ten samples, which
completes INIT. -/
theorem accel_bias_kept_witness :
    (allImu [demoGroup10].dropLast).length < MAX_INI_COUNT ∧
    ∃ o, processAll refExt ⟨configure (ImuProcess.ctor refExt demoUnassigned) [], demoKf, [], []⟩
        [demoGroup10] = some o ∧ o.kf.x.ba = demoKf.x.ba :=
  ⟨by decide, accel_bias_kept refExt demoUnassigned [] demoKf [] [demoGroup10] (by decide)⟩

/-- C10, as stated, fails: a new object fed a single sample is still initialising after the
call (`imu_need_init_` true, one sample out of ten), yet the call has changed the filter:
`grav` went from `(0, 0, −1)` to `(0, 0, −9.81)` and `P(0,0)` from 0 to 1. -/
theorem first_init_call_seeds_example :
    demoKf.x.grav = ⟨0, 0, -1⟩ ∧ demoKf.P 0 0 = 0 ∧
    (Process refExt demoCold demoGroup1 demoKf []).map
      (fun o => (o.core.imu_need_init_, o.core.init_iter_num, o.kf.x.grav, o.kf.P 0 0,
        decide (o.kf.x.grav = demoKf.x.grav), decide (o.kf.P 0 0 = demoKf.P 0 0))) =
      some (true, 2, ⟨0, 0, -981 / 100⟩, 1, false, false) := by
  decide!

/-- C10 (amended): the seeding is not reserved to the completing call. Every `Process` call
made while initialising on a non-empty IMU list, whether or not it completes INIT, returns
and seeds the filter from the running means it leaves in the object: `x` is the state at
entry with `grav`, `bg` and the extrinsic assigned, and `P` is the seeded diagonal. -/
theorem every_init_call_seeds (ext : Ext) (c : ImuProcess) (meas : MeasureGroup) (kf : esekf)
    (pcl : PointCloudXYZI) (hinit : c.imu_need_init_ = true) (hne : meas.imu ≠ []) :
    ∃ o, Process ext c meas kf pcl = some o ∧
      o.kf.x = { kf.x with
        grav := S2 (((o.core.mean_acc.neg).divS (ext.norm o.core.mean_acc)).mulS G_m_s2)
        bg := o.core.mean_gyr
        offset_T_L_I := o.core.Lidar_T_wrt_IMU
        offset_R_L_I := o.core.Lidar_R_wrt_IMU } ∧
      o.kf.P = Matrix.diagonal seededDiag := by
  obtain ⟨c1, back, -, -, hP⟩ := Process_init_eq ext c meas kf pcl hne hinit
  obtain ⟨-, f2, f3, -, ⟨g1, g2, -⟩, -⟩ :=
    initFinish_fields ext { meas.imu.foldl initStep c1 with last_imu_ := back } back
  refine ⟨_, hP, ?_, initCov_eq kf.P⟩
  simp only [initState, f2, f3, g1, g2]

/-- Instance of `every_init_call_seeds` on a new object and a single sample, a call that
does not complete INIT. -/
theorem every_init_call_seeds_witness :
    demoCold.imu_need_init_ = true ∧ demoGroup1.imu ≠ [] ∧
    ∃ o, Process refExt demoCold demoGroup1 demoKf [] = some o ∧
      o.kf.x = { demoKf.x with
        grav := S2 (((o.core.mean_acc.neg).divS (refExt.norm o.core.mean_acc)).mulS G_m_s2)
        bg := o.core.mean_gyr
        offset_T_L_I := o.core.Lidar_T_wrt_IMU
        offset_R_L_I := o.core.Lidar_R_wrt_IMU } ∧
      o.kf.P = Matrix.diagonal seededDiag :=
  ⟨rfl, by decide, every_init_call_seeds refExt demoCold demoGroup1 demoKf [] rfl (by decide)⟩

/-- C11: every `Process` call entered while `imu_need_init_` is true, the call that completes
INIT included, returns with the output cloud exactly as it was before the call and without
any `predict` call (no forward propagation, no undistortion). -/
theorem init_call_keeps_cloud_without_predict (ext : Ext) (c : ImuProcess)
    (meas : MeasureGroup) (kf : esekf) (pcl : PointCloudXYZI)
    (hinit : c.imu_need_init_ = true) :
    ∃ o, Process ext c meas kf pcl = some o ∧ o.pcl = pcl ∧ o.calls = [] := by
  by_cases hne : meas.imu = []
  · exact ⟨_, Process_empty_imu_step ext c meas kf pcl hne, rfl, rfl⟩
  · obtain ⟨c1, back, -, -, hP⟩ := Process_init_eq ext c meas kf pcl hne hinit
    exact ⟨_, hP, rfl, rfl⟩

/-- Instance of `init_call_keeps_cloud_without_predict` on the call that completes INIT for a
new object (ten samples), with a one-point cloud behind the output handle. -/
theorem init_call_keeps_cloud_without_predict_witness :
    demoCold.imu_need_init_ = true ∧
    ∃ o, Process refExt demoCold demoGroup10 demoKf [⟨9, 9, 9, 9, 9⟩] = some o ∧
      o.pcl = [⟨9, 9, 9, 9, 9⟩] ∧ o.calls = [] :=
  ⟨rfl, init_call_keeps_cloud_without_predict refExt demoCold demoGroup10 demoKf
    [⟨9, 9, 9, 9, 9⟩] rfl⟩

/-- C12: a `Process` call entered while initialising returns, and when it completes INIT
(`imu_need_init_` false afterwards) it leaves, whatever the samples and the prior `cov_acc`
and `cov_gyr`, `cov_acc = cov_acc_scale` and `cov_gyr = cov_gyr_scale`: the rescale by
`(9.81/‖mean_acc‖)²` has no effect on the final value. The next `Process` call, on any
group, returns and keeps these two values, and when it integrates at least one IMU pair (two
or more `predict` calls) each of its `predict` calls carries a `Q` whose gyro block diagonal
is `cov_gyr_scale` and whose accel block diagonal is `cov_acc_scale`. -/
theorem noise_cov_after_init (ext : Ext) (c : ImuProcess) (meas : MeasureGroup) (kf : esekf)
    (pcl : PointCloudXYZI) (hinit : c.imu_need_init_ = true) :
    ∃ o, Process ext c meas kf pcl = some o ∧
      (o.core.imu_need_init_ = false →
        o.core.cov_acc = c.cov_acc_scale ∧ o.core.cov_gyr = c.cov_gyr_scale ∧
        ∀ (meas2 : MeasureGroup) (kf2 : esekf) (pcl2 : PointCloudXYZI),
          ∃ o2, Process ext o.core meas2 kf2 pcl2 = some o2 ∧
            o2.core.cov_acc = c.cov_acc_scale ∧ o2.core.cov_gyr = c.cov_gyr_scale ∧
            (2 ≤ o2.calls.length →
              ∀ call ∈ o2.calls, QBlocks call.Q c.cov_gyr_scale c.cov_acc_scale)) := by
  by_cases hne : meas.imu = []
  · refine ⟨_, Process_empty_imu_step ext c meas kf pcl hne, fun h => ?_⟩
    rw [hinit] at h
    exact absurd h (by simp)
  · obtain ⟨c1, back, h1, -, hP⟩ := Process_init_eq ext c meas kf pcl hne hinit
    obtain ⟨c1', h1', hcfg1, -⟩ := initFirstFrame_spec c meas hne
    rw [h1] at h1'
    cases h1'
    obtain ⟨hcfg2, -⟩ := foldl_initStep_frame meas.imu c1
    have hS := SameConfig_trans hcfg1 hcfg2
    refine ⟨_, hP, fun hdone => ?_⟩
    have hcov : (initFinish ext { meas.imu.foldl initStep c1 with last_imu_ := back } back).cov_acc
          = c.cov_acc_scale ∧
        (initFinish ext { meas.imu.foldl initStep c1 with last_imu_ := back } back).cov_gyr
          = c.cov_gyr_scale := by
      simp only [] at hdone
      unfold initFinish at hdone ⊢
      by_cases hi : MAX_INI_COUNT < (meas.imu.foldl initStep c1).init_iter_num
      · simp only [hi, if_true]
        exact ⟨hS.2.2.1, hS.2.2.2.1⟩
      · simp only [hi, if_false] at hdone
        exact absurd hdone (by simp)
    refine ⟨hcov.1, hcov.2, fun meas2 kf2 pcl2 => ?_⟩
    by_cases hne2 : meas2.imu = []
    · exact ⟨_, Process_empty_imu_step ext _ meas2 kf2 pcl2 hne2, hcov.1, hcov.2,
        fun h => absurd h (by simp)⟩
    · obtain ⟨back2, hb2⟩ := getLast_some_of_ne_nil meas2.imu hne2
      obtain ⟨pts, -, hU⟩ := UndistortPcl_spec ext
        (initFinish ext { meas.imu.foldl initStep c1 with last_imu_ := back } back) meas2 kf2
        (fun _ => False) back2 hb2 (fun _ h => absurd h id)
      rw [← Process_primed_eq ext _ meas2 kf2 pcl2 hne2 hdone] at hU
      have hcore := forwardLoop_core ext meas2.lidar_beg_time
        ((initFinish ext { meas.imu.foldl initStep c1 with last_imu_ := back } back).last_imu_
          :: meas2.imu)
        (forwardInit ext
          (initFinish ext { meas.imu.foldl initStep c1 with last_imu_ := back } back) kf2)
      obtain ⟨q1, q2⟩ := forwardLoop_Q ext meas2.lidar_beg_time c.cov_gyr_scale c.cov_acc_scale
        ((initFinish ext { meas.imu.foldl initStep c1 with last_imu_ := back } back).last_imu_
          :: meas2.imu)
        (forwardInit ext
          (initFinish ext { meas.imu.foldl initStep c1 with last_imu_ := back } back) kf2)
        hcov.2 hcov.1 (fun call h => absurd h (by simp [forwardInit]))
        (fun h => absurd rfl h)
      refine ⟨_, hU, ?_, ?_, fun hlen call hmem => ?_⟩
      · show (forwardPass ext _ meas2 kf2).core.cov_acc = c.cov_acc_scale
        unfold forwardPass
        rw [hcore]
        exact hcov.1
      · show (forwardPass ext _ meas2 kf2).core.cov_gyr = c.cov_gyr_scale
        unfold forwardPass
        rw [hcore]
        exact hcov.2
      · simp only [List.length_append, List.length_singleton] at hlen
        have hnz : (forwardPass ext
            (initFinish ext { meas.imu.foldl initStep c1 with last_imu_ := back } back)
            meas2 kf2).calls ≠ [] := by
          intro h0
          rw [h0] at hlen
          simp at hlen
        simp only [List.mem_append, List.mem_singleton] at hmem
        rcases hmem with hm | hm
        · exact q1 call hm
        · rw [hm]
          exact q2 hnz

/-- Instance of `noise_cov_after_init` on the call that completes INIT for a new object. -/
theorem noise_cov_after_init_witness :
    demoCold.imu_need_init_ = true ∧
    ∃ o, Process refExt demoCold demoGroup10 demoKf [] = some o ∧
      (o.core.imu_need_init_ = false →
        o.core.cov_acc = demoCold.cov_acc_scale ∧ o.core.cov_gyr = demoCold.cov_gyr_scale ∧
        ∀ (meas2 : MeasureGroup) (kf2 : esekf) (pcl2 : PointCloudXYZI),
          ∃ o2, Process refExt o.core meas2 kf2 pcl2 = some o2 ∧
            o2.core.cov_acc = demoCold.cov_acc_scale ∧
            o2.core.cov_gyr = demoCold.cov_gyr_scale ∧
            (2 ≤ o2.calls.length →
              ∀ call ∈ o2.calls,
                QBlocks call.Q demoCold.cov_gyr_scale demoCold.cov_acc_scale)) :=
  ⟨rfl, noise_cov_after_init refExt demoCold demoGroup10 demoKf [] rfl⟩

/-- C13, as stated, fails: the previous sweep ended at 1 and the sweep `demoSweepGap` runs
from 2 to 3 with IMU samples stamped 3/2, 5/2 and 3 (non-decreasing, covering the sweep);
the waypoints get the offsets `0, −1/2, 1/2, 1`, which is not non-decreasing. -/
theorem waypoint_offsets_not_monotone_example :
    demoPrimed.imu_need_init_ = false ∧ demoPrimed.last_lidar_end_time_ = 1 ∧
    demoSweepGap.lidar_beg_time = 2 ∧ demoSweepGap.lidar_end_time = 3 ∧
    demoSweepGap.imu.map Imu.stamp = [3 / 2, 5 / 2, 3] ∧
    (Process refExt demoPrimed demoSweepGap demoKfMoving []).map
      (fun o => o.core.IMUpose.map Pose6D.offset_time) = some [0, -1 / 2, 1 / 2, 1] ∧
    ¬ ([0, -1 / 2, 1 / 2, 1] : List ℚ).Sorted (fun a b => a ≤ b) := by
  decide!

/-- C13 (amended): for a primed object and a group with a non-empty IMU list whose stamps are
non-decreasing, `Process` returns and `IMUpose` has first entry `offset_time = 0`; its entries
after the first are non-decreasing in `offset_time`; and the whole list is non-decreasing
when no IMU sample stamped at or after `last_lidar_end_time_` is stamped before
`lidar_beg_time`. -/
theorem waypoint_offsets_monotone (ext : Ext) (c : ImuProcess) (meas : MeasureGroup)
    (kf : esekf) (pcl : PointCloudXYZI)
    (hprimed : c.imu_need_init_ = false) (hne : meas.imu ≠ [])
    (hmono : (meas.imu.map Imu.stamp).Sorted (fun a b => a ≤ b)) :
    ∃ o, Process ext c meas kf pcl = some o ∧
      o.core.IMUpose.head?.map Pose6D.offset_time = some 0 ∧
      (o.core.IMUpose.tail.map Pose6D.offset_time).Sorted (fun a b => a ≤ b) ∧
      ((∀ s ∈ meas.imu, c.last_lidar_end_time_ ≤ s.stamp → meas.lidar_beg_time ≤ s.stamp) →
        (o.core.IMUpose.map Pose6D.offset_time).Sorted (fun a b => a ≤ b)) := by
  obtain ⟨back, hb⟩ := getLast_some_of_ne_nil meas.imu hne
  obtain ⟨pts, -, hU⟩ := UndistortPcl_spec ext c meas kf (fun _ => False) back hb
    (fun _ h => absurd h id)
  rw [← Process_primed_eq ext c meas kf pcl hne hprimed] at hU
  have hoff : (forwardPass ext c meas kf).core.IMUpose.map Pose6D.offset_time =
      0 :: (meas.imu.filter (fun t => decide (¬ t.stamp < c.last_lidar_end_time_))).map
        (fun t => t.stamp - meas.lidar_beg_time) := by
    unfold forwardPass
    rw [forwardLoop_offset_list]
    simp [forwardInit, set_pose6d]
  have hF : ((meas.imu.filter (fun t => decide (¬ t.stamp < c.last_lidar_end_time_))).map
      (fun t => t.stamp - meas.lidar_beg_time)).Sorted (fun a b => a ≤ b) := by
    rw [List.Sorted, List.pairwise_map] at hmono ⊢
    exact (hmono.sublist (List.filter_sublist _)).imp (fun h => by linarith)
  refine ⟨_, hU, ?_, ?_, fun hbeg => ?_⟩
  · show (forwardPass ext c meas kf).core.IMUpose.head?.map Pose6D.offset_time = some 0
    rw [← List.head?_map, hoff]
    rfl
  · show ((forwardPass ext c meas kf).core.IMUpose.tail.map Pose6D.offset_time).Sorted _
    rw [List.map_tail, hoff]
    exact hF
  · show ((forwardPass ext c meas kf).core.IMUpose.map Pose6D.offset_time).Sorted _
    rw [hoff]
    refine List.sorted_cons.mpr ⟨fun b hbm => ?_, hF⟩
    simp only [List.mem_map, List.mem_filter, decide_eq_true_eq, not_lt] at hbm
    obtain ⟨t, ⟨ht1, ht2⟩, rfl⟩ := hbm
    have := hbeg t ht1 ht2
    linarith

/-- Instance of `waypoint_offsets_monotone` on the sweep `demoSweepGap`. -/
theorem waypoint_offsets_monotone_witness :
    demoPrimed.imu_need_init_ = false ∧ demoSweepGap.imu ≠ [] ∧
    (demoSweepGap.imu.map Imu.stamp).Sorted (fun a b => a ≤ b) ∧
    ∃ o, Process refExt demoPrimed demoSweepGap demoKfMoving [] = some o ∧
      o.core.IMUpose.head?.map Pose6D.offset_time = some 0 ∧
      (o.core.IMUpose.tail.map Pose6D.offset_time).Sorted (fun a b => a ≤ b) ∧
      ((∀ s ∈ demoSweepGap.imu, demoPrimed.last_lidar_end_time_ ≤ s.stamp →
          demoSweepGap.lidar_beg_time ≤ s.stamp) →
        (o.core.IMUpose.map Pose6D.offset_time).Sorted (fun a b => a ≤ b)) :=
  ⟨rfl, by decide, by decide!,
    waypoint_offsets_monotone refExt demoPrimed demoSweepGap demoKfMoving [] rfl (by decide)
      (by decide!)⟩

/-- C14, as stated, fails: in the sweep `demoSweepLate` (begun at 6/5, previous sweep ended at
1) the waypoints have offsets `0` and `3/10`, and the point at the origin has time offset
500 ms, later than the last waypoint. The code leaves it at `(−1/2, 0, 0)`, the compensation
from the first waypoint with `Δt = 1/2`; compensation from the last waypoint with
`Δt = 1/2 − 3/10` would give `(−3/10, 0, 0)`. -/
theorem late_point_not_from_last_waypoint_example :
    demoPrimed.imu_need_init_ = false ∧
    demoSweepLate.lidar = [⟨0, 0, 0, 7, 500⟩] ∧
    (Process refExt demoPrimed demoSweepLate demoKfMoving []).bind
      (fun o => o.core.IMUpose.getLast?.bind (fun last => o.pcl.head?.map (fun q =>
        (o.core.IMUpose.map Pose6D.offset_time, q.curvature / 1000, (⟨q.x, q.y, q.z⟩ : V3),
          compensate refExt o.kf.x last last ⟨0, 0, 0, 7, 500⟩,
          decide (q = compensate refExt o.kf.x last last ⟨0, 0, 0, 7, 500⟩))))) =
      some ([0, 3 / 10], 1 / 2, ⟨-1 / 2, 0, 0⟩, ⟨-3 / 10, 0, 0, 7, 500⟩, false) := by
  decide!

/-- C14 (amended): for a primed object and a group with a non-empty IMU list whose cloud
`std::sort` leaves ordered for `time_list`, `Process` returns, and whenever the waypoint list
ends with `head, tail` (at least two waypoints), a point of the sorted cloud whose offset
time is strictly greater than `tail.offset_time` and than `head.offset_time`, and which is
not the first point of the sorted cloud unless there are only two waypoints, is compensated
with the second-to-last waypoint `head` as head and the last waypoint `tail` as tail:
`Δt = offset_time − head.offset_time`, rotation, velocity and position are those of `head`,
angular rate and acceleration those of `tail`. -/
theorem late_point_uses_last_pair (ext : Ext) (c : ImuProcess) (meas : MeasureGroup)
    (kf : esekf) (pcl : PointCloudXYZI)
    (hprimed : c.imu_need_init_ = false) (hne : meas.imu ≠ [])
    (hsorted : (ext.sort meas.lidar).Pairwise (fun a b => time_list b a = false)) :
    ∃ o, Process ext c meas kf pcl = some o ∧
      ∀ (front : List Pose6D) (head tail : Pose6D) (j : Nat) (p : PointType),
        o.core.IMUpose = front ++ [head, tail] →
        (ext.sort meas.lidar)[j]? = some p →
        (1 ≤ j ∨ front = []) →
        p.curvature / 1000 > tail.offset_time →
        p.curvature / 1000 > head.offset_time →
        o.pcl[j]? = some (compensate ext o.kf.x head tail p) := by
  obtain ⟨back, hb⟩ := getLast_some_of_ne_nil meas.imu hne
  obtain ⟨pts, hU, hwalk⟩ := UndistortPcl_unfold ext c meas kf back hb
  rw [← Process_primed_eq ext c meas kf pcl hne hprimed] at hU
  refine ⟨_, hU, ?_⟩
  intro front head tail j p hposes hj hfirst _ hhead
  have hposes2 : (forwardPass ext c meas kf).core.IMUpose = front ++ [head, tail] := hposes
  have hjlt : j < (ext.sort meas.lidar).length := (List.getElem?_eq_some.mp hj).1
  rcases hwalk with ⟨hnil, -⟩ | ⟨-, hloop⟩
  · rw [hnil] at hjlt
    exact absurd hjlt (by simp)
  · rw [hposes2] at hloop
    have hlen : (front ++ [head, tail]).length - 1 = front.length + 1 := by simp
    rw [hlen, poseLoop_last_pair] at hloop
    obtain ⟨i1, pts1, e1, e2, e3, e4, e5, e6, e7⟩ := pointLoop_detail ext
      (ext.predict (forwardPass ext c meas kf).kf (finalDt meas.lidar_end_time back.stamp)
        (forwardPass ext c meas kf).core.Q (forwardPass ext c meas kf).inp).x
      head tail ((ext.sort meas.lidar).length - 1) (ext.sort meas.lidar) (by omega)
    rw [e1] at hloop
    simp only [] at hloop
    have hcond : ∀ k q, j ≤ k → (ext.sort meas.lidar)[k]? = some q →
        q.curvature / 1000 > head.offset_time := by
      intro k q hjk hq
      rcases Nat.eq_or_lt_of_le hjk with h | h
      · subst h
        rw [hj] at hq
        cases hq
        exact hhead
      · have hk := (List.getElem?_eq_some.mp hq).1
        have hpq := List.pairwise_iff_getElem.mp hsorted j k hjlt hk h
        have e_j := (List.getElem?_eq_some.mp hj).2
        have e_k := (List.getElem?_eq_some.mp hq).2
        rw [e_j, e_k] at hpq
        simp only [time_list, decide_eq_false_iff_not, not_lt] at hpq
        have : p.curvature / 1000 ≤ q.curvature / 1000 := by linarith
        linarith
    show pts[j]? = some _
    by_cases hi : i1 < j
    · obtain ⟨pts2, g1, -, g3⟩ := poseLoop_above ext
        (ext.predict (forwardPass ext c meas kf).kf (finalDt meas.lidar_end_time back.stamp)
          (forwardPass ext c meas kf).core.Q (forwardPass ext c meas kf).inp).x
        (front ++ [head, tail]) front.length i1 pts1 (by simp) (by rw [e3]; omega)
      rw [g1] at hloop
      cases hloop
      rw [g3 j hi]
      exact (e6 j p hi (by omega) hj).2
    · have hge : j ≤ i1 := Nat.le_of_not_lt hi
      obtain ⟨q, hq⟩ : ∃ q, (ext.sort meas.lidar)[i1]? = some q :=
        ⟨_, List.getElem?_eq_getElem (by omega)⟩
      rcases e7 q hq with ⟨hn, -⟩ | ⟨h0, -, hq0⟩
      · exact absurd (hcond i1 q hge hq) hn
      · have hj0 : j = 0 := by omega
        rcases hfirst with h1 | hfront
        · omega
        · subst hfront
          subst h0
          subst hj0
          rw [hj] at hq
          cases hq
          simp only [List.nil_append, List.length_nil] at hloop
          rw [poseLoop] at hloop
          cases hloop
          exact hq0

/-- Instance of `late_point_uses_last_pair` on the sweep `demoSweepLate`. -/
theorem late_point_uses_last_pair_witness :
    demoPrimed.imu_need_init_ = false ∧ demoSweepLate.imu ≠ [] ∧
    (refExt.sort demoSweepLate.lidar).Pairwise (fun a b => time_list b a = false) ∧
    ∃ o, Process refExt demoPrimed demoSweepLate demoKfMoving [] = some o ∧
      ∀ (front : List Pose6D) (head tail : Pose6D) (j : Nat) (p : PointType),
        o.core.IMUpose = front ++ [head, tail] →
        (refExt.sort demoSweepLate.lidar)[j]? = some p →
        (1 ≤ j ∨ front = []) →
        p.curvature / 1000 > tail.offset_time →
        p.curvature / 1000 > head.offset_time →
        o.pcl[j]? = some (compensate refExt o.kf.x head tail p) :=
  ⟨rfl, by decide, by decide!,
    late_point_uses_last_pair refExt demoPrimed demoSweepLate demoKfMoving [] rfl (by decide)
      (by decide!)⟩

/-- C15 fails on the code: the clouds of `demoSweepTie` and `demoSweepTieSwapped` hold the
same two points, which share the time offset 600 ms, in the two possible orders (both are
ordered by time offset). The posterior position is the same in both runs, but the first
point of each sorted cloud is compensated twice (the `break` only leaves the inner loop), so
the output clouds are not permutations of one another. -/
theorem tied_points_order_changes_output_example :
    demoPrimed.imu_need_init_ = false ∧
    demoSweepTieSwapped.lidar.Perm demoSweepTie.lidar ∧
    demoSweepTie.lidar.Pairwise (fun a b => time_list b a = false) ∧
    (Process refExt demoPrimed demoSweepTie demoKfMoving []).map (fun o => o.pcl) =
      some [⟨1 / 5, 0, 0, 7, 600⟩, ⟨8 / 5, 0, 0, 8, 600⟩] ∧
    (Process refExt demoPrimed demoSweepTieSwapped demoKfMoving []).map (fun o => o.pcl) =
      some [⟨6 / 5, 0, 0, 8, 600⟩, ⟨3 / 5, 0, 0, 7, 600⟩] ∧
    ¬ ([⟨6 / 5, 0, 0, 8, 600⟩, ⟨3 / 5, 0, 0, 7, 600⟩] : List PointType).Perm
        [⟨1 / 5, 0, 0, 7, 600⟩, ⟨8 / 5, 0, 0, 8, 600⟩] ∧
    (Process refExt demoPrimed demoSweepTie demoKfMoving []).map (fun o => o.kf.x.pos) =
      (Process refExt demoPrimed demoSweepTieSwapped demoKfMoving []).map (fun o => o.kf.x.pos) := by
  decide!

/-- C16, as stated, fails: take the object left by a completed INIT (ten samples), call
`Reset()` and feed it a group without IMU samples; `cov_acc` is `(0, 0, 0)` (the configured
scale that the completion wrote, which `Reset()` does not touch), while a new object with the
same configuration fed the same group has `cov_acc = (0.1, 0.1, 0.1)`. -/
theorem reset_keeps_cov_example :
    (Process refExt demoCold demoGroup10 demoKf []).bind
      (fun o => (processAll refExt ⟨Reset o.core, demoKf, [], []⟩ [demoGroupNoImu]).map
        (fun r => (decide (o.core.cov_acc_scale = demoCold.cov_acc_scale ∧
            o.core.Lidar_T_wrt_IMU = demoCold.Lidar_T_wrt_IMU ∧
            o.core.Lidar_R_wrt_IMU = demoCold.Lidar_R_wrt_IMU),
          r.core.imu_need_init_, r.core.cov_acc))) =
      some (true, true, ⟨0, 0, 0⟩) ∧
    (processAll refExt ⟨demoCold, demoKf, [], []⟩ [demoGroupNoImu]).map
      (fun r => (r.core.imu_need_init_, r.core.cov_acc)) =
      some (true, ⟨1 / 10, 1 / 10, 1 / 10⟩) := by
  decide!

/-- C16 (amended): let `c` be any object state and take a new object with the same
configuration. For every sequence of groups holding at least one IMU sample, each call
entered while initialising, the run after `Reset()` on `c` and the run on the new object,
started with the same filter, both return and end with the same `mean_acc`, `mean_gyr`,
`cov_acc`, `cov_gyr`, the same `imu_need_init_` and `init_iter_num` (hence the same
completing call), and the same filter state `x` and covariance `P`. -/
theorem reset_then_init_matches_fresh (ext : Ext) (c : ImuProcess) (u : Unassigned)
    (cfgs : List Config) (kf : esekf) (pcl1 pcl2 : PointCloudXYZI) (ms : List MeasureGroup)
    (hcfg : SameConfig c (configure (ImuProcess.ctor ext u) cfgs))
    (hn : allImu ms ≠ [])
    (hinit : (allImu ms.dropLast).length < MAX_INI_COUNT) :
    ∃ o1 o2, processAll ext ⟨Reset c, kf, pcl1, []⟩ ms = some o1 ∧
      processAll ext ⟨configure (ImuProcess.ctor ext u) cfgs, kf, pcl2, []⟩ ms = some o2 ∧
      o1.core.mean_acc = o2.core.mean_acc ∧ o1.core.mean_gyr = o2.core.mean_gyr ∧
      o1.core.cov_acc = o2.core.cov_acc ∧ o1.core.cov_gyr = o2.core.cov_gyr ∧
      o1.core.imu_need_init_ = o2.core.imu_need_init_ ∧
      o1.core.init_iter_num = o2.core.init_iter_num ∧
      o1.kf = o2.kf := by
  obtain ⟨-, f2, f3⟩ := configure_flags cfgs (ImuProcess.ctor ext u)
  obtain ⟨o1, o2, h1, h2, hk, -, hA⟩ := processAll_agree ext ms [] (Reset c)
    (configure (ImuProcess.ctor ext u) cfgs) kf pcl1 pcl2 [] [] rfl (by rw [f2]; rfl) rfl
    (by rw [f3]; rfl) hcfg (fun h => absurd rfl h) (by simpa using hinit)
  obtain ⟨a1, a2, a3, a4, a5, a6, -⟩ := hA (by simpa using hn)
  exact ⟨o1, o2, h1, h2, a1.symm, a2.symm, a3.symm, a4.symm, a6.symm, a5.symm, hk⟩

/-- Instance of `reset_then_init_matches_fresh`: `Reset()` on a primed object, then eleven
samples in two calls, against a new object. -/
theorem reset_then_init_matches_fresh_witness :
    SameConfig demoPrimed (configure (ImuProcess.ctor refExt demoUnassigned) []) ∧
    allImu [demoGroup1, demoGroup10] ≠ [] ∧
    (allImu [demoGroup1, demoGroup10].dropLast).length < MAX_INI_COUNT ∧
    ∃ o1 o2, processAll refExt ⟨Reset demoPrimed, demoKf, [], []⟩ [demoGroup1, demoGroup10] =
        some o1 ∧
      processAll refExt ⟨configure (ImuProcess.ctor refExt demoUnassigned) [], demoKf, [], []⟩
        [demoGroup1, demoGroup10] = some o2 ∧
      o1.core.mean_acc = o2.core.mean_acc ∧ o1.core.mean_gyr = o2.core.mean_gyr ∧
      o1.core.cov_acc = o2.core.cov_acc ∧ o1.core.cov_gyr = o2.core.cov_gyr ∧
      o1.core.imu_need_init_ = o2.core.imu_need_init_ ∧
      o1.core.init_iter_num = o2.core.init_iter_num ∧
      o1.kf = o2.kf :=
  ⟨⟨rfl, rfl, rfl, rfl, rfl, rfl⟩, by decide!, by decide!,
    reset_then_init_matches_fresh refExt demoPrimed demoUnassigned [] demoKf [] []
      [demoGroup1, demoGroup10] ⟨rfl, rfl, rfl, rfl, rfl, rfl⟩ (by decide!) (by decide!)⟩

/-- C17 fails on the code: in the sweep `demoSweepTwo` the waypoints have offsets `0, 1/2, 1`
and the two points have offset times `3/5` and `4/5`, both bracketed by the last waypoint
pair. The second point is compensated once, with that pair. The first point of the sorted
cloud is compensated with that pair and then, the `break` having left only the inner loop,
a second time with the pair before it: the cloud holds `x = 1/5` for it, where a single
compensation with the bracketing pair gives `x = 3/5`. -/
theorem first_point_compensated_twice_example :
    demoPrimed.imu_need_init_ = false ∧
    (Process refExt demoPrimed demoSweepTwo demoKfMoving []).map
      (fun o => (o.core.IMUpose.map Pose6D.offset_time,
        (refExt.sort demoSweepTwo.lidar).map (fun p => p.curvature / 1000))) =
      some ([0, 1 / 2, 1], [3 / 5, 4 / 5]) ∧
    (Process refExt demoPrimed demoSweepTwo demoKfMoving []).map (fun o => o.pcl) =
      some [⟨1 / 5, 0, 0, 7, 600⟩, ⟨9 / 5, 0, 0, 8, 800⟩] ∧
    (Process refExt demoPrimed demoSweepTwo demoKfMoving []).map
      (fun o => bracketCompensate refExt o.kf.x o.core.IMUpose
        (refExt.sort demoSweepTwo.lidar)) =
      some [⟨3 / 5, 0, 0, 7, 600⟩, ⟨9 / 5, 0, 0, 8, 800⟩] ∧
    (Process refExt demoPrimed demoSweepTwo demoKfMoving []).map
      (fun o => decide (o.pcl.head? =
        o.core.IMUpose[0]?.bind (fun w0 => o.core.IMUpose[1]?.bind (fun w1 =>
          o.core.IMUpose[2]?.map (fun w2 => compensate refExt o.kf.x w0 w1
            (compensate refExt o.kf.x w1 w2 ⟨1, 0, 0, 7, 600⟩)))))) = some true := by
  decide!

/-- C18: for a primed object and a group whose IMU stamps are non-decreasing, with the
retained `last_imu_` stamped at or before `last_lidar_end_time_`, the last IMU sample stamped
at or after `last_lidar_end_time_` and `lidar_end_time` at or after the last IMU sample,
`Process` returns and the `dt` values of its `predict` calls (one for each IMU sample that is
not stale, plus the final one) sum to `lidar_end_time − last_lidar_end_time_`, each of them
being `≥ 0`. -/
theorem forward_dt_sum (ext : Ext) (c : ImuProcess) (meas : MeasureGroup) (kf : esekf)
    (pcl : PointCloudXYZI) (last : Imu)
    (hprimed : c.imu_need_init_ = false)
    (hmono : (meas.imu.map Imu.stamp).Sorted (fun a b => a ≤ b))
    (hL : c.last_imu_.stamp ≤ c.last_lidar_end_time_)
    (hlast : meas.imu.getLast? = some last)
    (h1 : c.last_lidar_end_time_ ≤ last.stamp)
    (h2 : last.stamp ≤ meas.lidar_end_time) :
    ∃ o, Process ext c meas kf pcl = some o ∧
      (o.calls.map PredictCall.dt).sum = meas.lidar_end_time - c.last_lidar_end_time_ ∧
      (∀ call ∈ o.calls, 0 ≤ call.dt) ∧
      o.calls.length =
        (meas.imu.filter (fun s => decide (¬ s.stamp < c.last_lidar_end_time_))).length + 1 := by
  have hne := ne_nil_of_getLast_some hlast
  obtain ⟨pts, -, hU⟩ := UndistortPcl_spec ext c meas kf (fun _ => False) last hlast
    (fun _ h => absurd h id)
  rw [← Process_primed_eq ext c meas kf pcl hne hprimed] at hU
  have hchain : (c.last_imu_ :: meas.imu).Chain'
      (fun a b => a.stamp ≤ (forwardInit ext c kf).core.last_lidar_end_time_ ∨
        a.stamp ≤ b.stamp) := by
    rw [List.chain'_cons']
    refine ⟨fun y _ => Or.inl hL, ?_⟩
    rw [List.Sorted, List.pairwise_map] at hmono
    exact List.Chain'.imp (fun _ _ h => Or.inr h) (List.Pairwise.chain' hmono)
  obtain ⟨d1, d2, d3⟩ := forwardLoop_dt ext meas.lidar_beg_time meas.imu c.last_imu_
    (forwardInit ext c kf) hchain
  have hgl : meas.imu.getLastD c.last_imu_ = last := by
    rw [List.getLastD_eq_getLast?, hlast]; rfl
  have hlle : (forwardInit ext c kf).core.last_lidar_end_time_ = c.last_lidar_end_time_ := rfl
  have hcalls0 : (forwardInit ext c kf).calls = [] := rfl
  rw [hgl, hlle, hcalls0] at d1
  rw [hlle, hcalls0] at d3
  rw [hcalls0] at d2
  refine ⟨_, hU, ?_, ?_, ?_⟩
  · show (((forwardPass ext c meas kf).calls ++ _).map PredictCall.dt).sum = _
    unfold forwardPass
    rw [List.map_append, List.sum_append, d1, max_eq_left h1, max_eq_right hL]
    simp only [List.map_nil, List.sum_nil, List.map_cons, List.sum_cons, finalDt_of_le h2]
    ring
  · intro call hc
    have hc2 : call ∈ (forwardPass ext c meas kf).calls ++
        [⟨finalDt meas.lidar_end_time last.stamp, (forwardPass ext c meas kf).core.Q,
          (forwardPass ext c meas kf).inp⟩] := hc
    simp only [List.mem_append, List.mem_singleton] at hc2
    rcases hc2 with hm | hm
    · rcases d2 call hm with h | h
      · exact absurd h (by simp)
      · exact h
    · rw [hm]
      simp only [finalDt_of_le h2]
      linarith
  · show ((forwardPass ext c meas kf).calls ++ _).length = _
    unfold forwardPass
    rw [List.length_append, d3]
    simp

/-- Instance of `forward_dt_sum` on the sweep `demoSweep`. -/
theorem forward_dt_sum_witness :
    demoPrimed.imu_need_init_ = false ∧
    (demoSweep.imu.map Imu.stamp).Sorted (fun a b => a ≤ b) ∧
    demoPrimed.last_imu_.stamp ≤ demoPrimed.last_lidar_end_time_ ∧
    demoSweep.imu.getLast? = some (demoImu 2) ∧
    demoPrimed.last_lidar_end_time_ ≤ (demoImu 2).stamp ∧
    (demoImu 2).stamp ≤ demoSweep.lidar_end_time ∧
    ∃ o, Process refExt demoPrimed demoSweep demoKfMoving [] = some o ∧
      (o.calls.map PredictCall.dt).sum =
        demoSweep.lidar_end_time - demoPrimed.last_lidar_end_time_ ∧
      (∀ call ∈ o.calls, 0 ≤ call.dt) ∧
      o.calls.length =
        (demoSweep.imu.filter
          (fun s => decide (¬ s.stamp < demoPrimed.last_lidar_end_time_))).length + 1 :=
  ⟨rfl, by decide!, by decide!, by decide!, by decide!, by decide!,
    forward_dt_sum refExt demoPrimed demoSweep demoKfMoving [] (demoImu 2) rfl (by decide!)
      (by decide!) (by decide!) (by decide!) (by decide!)⟩

/-- C19: the backward walk is index-safe and terminating. For every waypoint list with at
least one entry, every filter state and every non-empty point list, started as
`UndistortPcl` starts it (waypoint cursor and point cursor on the last entries), the walk
returns a cloud (the model returns `none` exactly when a waypoint or a point would be read
outside its container), with as many points and the same time offsets; each inner loop
started at a valid point cursor ends with the cursor at or below where it started, never
below the first point; with only the seed waypoint the cloud is returned unchanged; and when
the sorted cloud is empty `UndistortPcl` returns the empty cloud without walking. -/
theorem backward_walk_safe (ext : Ext) (x : state_ikfom) (poses : List Pose6D)
    (hposes : poses ≠ []) :
    (∀ pts : List PointType, pts ≠ [] →
      ∃ out, poseLoop ext x poses (poses.length - 1) (pts.length - 1) pts = some out ∧
        out.length = pts.length ∧
        out.map PointType.curvature = pts.map PointType.curvature) ∧
    (∀ (head tail : Pose6D) (i : Nat) (pts : List PointType), i < pts.length →
      ∃ i1 pts1, pointLoop ext x head tail i pts = some (i1, pts1) ∧ i1 ≤ i ∧
        pts1.length = pts.length) ∧
    (poses.length = 1 → ∀ pts : List PointType,
      poseLoop ext x poses (poses.length - 1) (pts.length - 1) pts = some pts) ∧
    (∀ (c : ImuProcess) (meas : MeasureGroup) (kf : esekf), meas.imu ≠ [] →
      ext.sort meas.lidar = [] → ∃ o, UndistortPcl ext c meas kf = some o ∧ o.pcl = []) := by
  have hlen : 0 < poses.length := List.length_pos.mpr hposes
  refine ⟨fun pts hpts => ?_, fun head tail i pts hi => ?_, fun h1 pts => ?_,
    fun c meas kf hne hs => ?_⟩
  · have hp : 0 < pts.length := List.length_pos.mpr hpts
    obtain ⟨out, h1, h2⟩ := poseLoop_spec ext x poses (fun _ => False)
      (fun _ h => absurd h id) (poses.length - 1) (pts.length - 1) pts (by omega) (by omega)
    exact ⟨out, h1, h2.1, (CloudRel_map_eq h2).1⟩
  · obtain ⟨i1, pts1, e1, e2, e3, -⟩ := pointLoop_detail ext x head tail i pts hi
    exact ⟨i1, pts1, e1, e2, e3⟩
  · rw [h1]
    rfl
  · obtain ⟨back, hb⟩ := getLast_some_of_ne_nil meas.imu hne
    obtain ⟨pts, hU, hw⟩ := UndistortPcl_unfold ext c meas kf back hb
    rcases hw with ⟨-, hp⟩ | ⟨hn, -⟩
    · exact ⟨_, hU, hp⟩
    · exact absurd hs hn

/-- Instance of `backward_walk_safe` on a single waypoint. -/
theorem backward_walk_safe_witness :
    [set_pose6d 0 V3.zero V3.zero V3.zero V3.zero M3.eye] ≠ [] ∧
    ((∀ pts : List PointType, pts ≠ [] →
      ∃ out, poseLoop refExt demoKfMoving.x
          [set_pose6d 0 V3.zero V3.zero V3.zero V3.zero M3.eye]
          ([set_pose6d 0 V3.zero V3.zero V3.zero V3.zero M3.eye].length - 1)
          (pts.length - 1) pts = some out ∧
        out.length = pts.length ∧
        out.map PointType.curvature = pts.map PointType.curvature) ∧
    (∀ (head tail : Pose6D) (i : Nat) (pts : List PointType), i < pts.length →
      ∃ i1 pts1, pointLoop refExt demoKfMoving.x head tail i pts = some (i1, pts1) ∧ i1 ≤ i ∧
        pts1.length = pts.length) ∧
    ([set_pose6d 0 V3.zero V3.zero V3.zero V3.zero M3.eye].length = 1 →
      ∀ pts : List PointType,
        poseLoop refExt demoKfMoving.x [set_pose6d 0 V3.zero V3.zero V3.zero V3.zero M3.eye]
          ([set_pose6d 0 V3.zero V3.zero V3.zero V3.zero M3.eye].length - 1)
          (pts.length - 1) pts = some pts) ∧
    (∀ (c : ImuProcess) (meas : MeasureGroup) (kf : esekf), meas.imu ≠ [] →
      refExt.sort meas.lidar = [] →
      ∃ o, UndistortPcl refExt c meas kf = some o ∧ o.pcl = [])) :=
  ⟨by simp,
    backward_walk_safe refExt demoKfMoving.x
      [set_pose6d 0 V3.zero V3.zero V3.zero V3.zero M3.eye] (by simp)⟩

/-- C20 fails on the code: a new object fed two samples whose accelerometer readings along x
are 0 and 2 is still initialising (no completion override) and has `mean_acc.x = 1`, yet
`cov_acc.x = 1/4`, while the sample variance `(1/n)·Σ(x_i − mean_n)²` of the two readings
is 1: the update uses the mean it has just updated with the weight `(N − 1)/N²`. -/
theorem running_cov_not_variance_example :
    demoGroupSpread.imu.map Imu.linear_acceleration = [⟨0, 0, 981 / 100⟩, ⟨2, 0, 981 / 100⟩] ∧
    (Process refExt demoCold demoGroupSpread demoKf []).map
      (fun o => (o.core.imu_need_init_, o.core.mean_acc, o.core.cov_acc,
        vvar (demoGroupSpread.imu.map Imu.linear_acceleration),
        decide (o.core.cov_acc = vvar (demoGroupSpread.imu.map Imu.linear_acceleration)))) =
      some (true, ⟨1, 0, 981 / 100⟩, ⟨1 / 4, 0, 0⟩, ⟨1, 0, 0⟩, false) := by
  decide!

end FastLio
